import Mathlib

/-!
Verification development for the `vap_master` pipeline (src/vap_master.py).

The Python source is shallowly embedded: byte buffers become `List Nat`
(one entry per byte, each < 256 where the source guarantees it), file
contents become `Option (List Nat)` (`none` = the path does not exist),
JSON documents become an inductive `Json` value (the image of Python's
`json.load`), and every fallible Python function returns `Except String`.
External processes (ffmpeg, ffprobe, mp4edit, the Java encoder) are
modelled by their observable interface: an exit status plus captured
output, or a boolean oracle.
-/

namespace VapMaster

/-- Big-endian value of the byte slice `data[pos : pos+n]`, exactly
`int.from_bytes(data[pos:pos+n], "big", signed=False)`: a Python slice
truncates at the end of the buffer, and `from_bytes` folds the available
bytes most-significant first. -/
def readBE (data : List Nat) (pos n : Nat) : Nat :=
  ((data.drop pos).take n).foldl (fun acc b => acc * 256 + b) 0

/-- The four tag bytes `data[pos+4 : pos+8]` decoded as latin-1
(`bytes.decode("latin1")`): each byte becomes the character with the same
code point. -/
def readTag (data : List Nat) (pos : Nat) : String :=
  String.mk (((data.drop (pos + 4)).take 4).map Char.ofNat)

/-- Embedding of the `while` loop of `list_top_level_atoms`
(src/vap_master.py lines 110-124), started at cursor `pos`:
read the 4-byte big-endian `atom_size`; on escape value 1 read the 8-byte
size at `pos+8` (breaking if fewer than 16 bytes remain) with a 16-byte
header; on escape value 0 the box extends to end of file (size
`len(data) - pos`, header 8); break when the size is below the header
size, else record the tag and advance the cursor by the box size.
The source's local `atom_size`/`header_size` variables are inlined. -/
def scanFrom (data : List Nat) (pos : Nat) : List String :=
  if hle : pos + 8 ≤ data.length then
    if readBE data pos 4 = 1 then
      if h16 : pos + 16 > data.length then
        []
      else
        if hsz : readBE data (pos + 8) 8 < 16 then
          []
        else
          readTag data pos :: scanFrom data (pos + readBE data (pos + 8) 8)
    else if readBE data pos 4 = 0 then
      if hsz : data.length - pos < 8 then
        []
      else
        readTag data pos :: scanFrom data (pos + (data.length - pos))
    else
      if hsz : readBE data pos 4 < 8 then
        []
      else
        readTag data pos :: scanFrom data (pos + readBE data pos 4)
  else
    []
termination_by data.length - pos
decreasing_by
  · omega
  · omega
  · omega

/-- Embedding of `list_top_level_atoms` (src/vap_master.py lines 105-125):
scan the buffer from cursor 0. -/
def list_top_level_atoms (data : List Nat) : List String :=
  scanFrom data 0

/-- Embedding of `has_top_level_vapc` (src/vap_master.py lines 128-129). -/
def has_top_level_vapc (data : List Nat) : Bool :=
  "vapc" ∈ list_top_level_atoms data

/-- Embedding of `is_valid_mp4` (src/vap_master.py lines 132-142).  A file
is `none` when the path does not exist; `mp4_path.stat().st_size` is the
byte count of the contents. -/
def is_valid_mp4 (file : Option (List Nat)) (min_size_bytes : Nat := 1024) : Bool :=
  match file with
  | none => false
  | some data =>
    if data.length < min_size_bytes then false
    else
      match list_top_level_atoms data with
      | [] => false
      | first :: rest =>
        if first ≠ "ftyp" ∧ "moov" ∉ first :: rest then false
        else if "moov" ∉ first :: rest ∨ "mdat" ∉ first :: rest then false
        else true

/-- Embedding of `is_playable_mp4` (src/vap_master.py lines 145-162): the
ffprobe invocation is external, modelled by the oracle `probe_ok`
(true exactly when its exit status is zero). -/
def is_playable_mp4 (file : Option (List Nat)) (probe_ok : Bool) : Bool :=
  if ¬ is_valid_mp4 file then false else probe_ok

/-! ## The scanner algorithm as the spec states it

Section 4.2 of the spec describes `scan` as a cursor loop; claim C1
quotes it box step by box step.  `scanSpecStep` is written from those
words (this is the one definition in this file that follows the spec's
sentences rather than the source, for the refinement claim C1); the scan
it induces is then proved equal to the embedded source function. -/

/-- Outcome of one cursor step of the spec's scanning algorithm. -/
inductive ScanStep where
  | stop
  | emit (tag : String) (next : Nat)
deriving DecidableEq

/-- One step of the spec's §4.2 algorithm, written from the spec's words:
at the cursor read a 4-byte big-endian size; if the size field is 1, read
an additional 8-byte big-endian size and use a 16-byte header; if the
size field is 0, treat the remaining bytes to end-of-file as this box's
full extent (a terminal box); if the declared size is less than the
header size, or reading the extended size would overrun the file, stop
scanning; scanning also stops when fewer than 8 bytes remain. -/
def scanSpecStep (data : List Nat) (pos : Nat) : ScanStep :=
  if pos + 8 > data.length then .stop
  else if readBE data pos 4 = 1 then
    if pos + 16 > data.length then .stop
    else if readBE data (pos + 8) 8 < 16 then .stop
    else .emit (readTag data pos) (pos + readBE data (pos + 8) 8)
  else if readBE data pos 4 = 0 then .emit (readTag data pos) data.length
  else if readBE data pos 4 < 8 then .stop
  else .emit (readTag data pos) (pos + readBE data pos 4)

theorem scanSpecStep_progress {data : List Nat} {pos : Nat} {tag : String} {next : Nat}
    (h : scanSpecStep data pos = .emit tag next) : pos < next ∧ pos < data.length := by
  unfold scanSpecStep at h
  split_ifs at h with h1 h2 h3 h4 h5 h6 <;> (cases h <;> omega)

/-- The spec's scan from a cursor: iterate `scanSpecStep`, collecting the
emitted tags. -/
def scanSpecFrom (data : List Nat) (pos : Nat) : List String :=
  match h : scanSpecStep data pos with
  | .stop => []
  | .emit tag next => tag :: scanSpecFrom data next
termination_by data.length - pos
decreasing_by
  have := scanSpecStep_progress h
  omega

/-- The spec's top-level scan. -/
def scanSpec (data : List Nat) : List String :=
  scanSpecFrom data 0

theorem scanSpecFrom_stop {data : List Nat} {pos : Nat}
    (h : scanSpecStep data pos = .stop) : scanSpecFrom data pos = [] := by
  rw [scanSpecFrom]
  split
  · rfl
  · next tag next hemit => rw [h] at hemit; cases hemit

theorem scanSpecFrom_emit {data : List Nat} {pos : Nat} {tag : String} {next : Nat}
    (h : scanSpecStep data pos = .emit tag next) :
    scanSpecFrom data pos = tag :: scanSpecFrom data next := by
  rw [scanSpecFrom]
  split
  · next hstop => rw [h] at hstop; cases hstop
  · next t n hemit =>
    rw [h] at hemit
    injection hemit with h1 h2
    rw [h1, h2]

/-- The embedded source loop takes exactly the step the spec prescribes,
from every cursor position. -/
theorem scanFrom_eq_scanSpecFrom (data : List Nat) (pos : Nat) :
    scanFrom data pos = scanSpecFrom data pos := by
  rw [scanFrom]
  by_cases hle : pos + 8 ≤ data.length
  · rw [dif_pos hle]
    by_cases h1 : readBE data pos 4 = 1
    · rw [if_pos h1]
      by_cases h16 : pos + 16 > data.length
      · have hstep : scanSpecStep data pos = .stop := by
          unfold scanSpecStep
          rw [if_neg (by omega), if_pos h1, if_pos h16]
        rw [dif_pos h16, scanSpecFrom_stop hstep]
      · rw [dif_neg h16]
        by_cases hsz : readBE data (pos + 8) 8 < 16
        · have hstep : scanSpecStep data pos = .stop := by
            unfold scanSpecStep
            rw [if_neg (by omega), if_pos h1, if_neg h16, if_pos hsz]
          rw [dif_pos hsz, scanSpecFrom_stop hstep]
        · have hstep : scanSpecStep data pos
              = .emit (readTag data pos) (pos + readBE data (pos + 8) 8) := by
            unfold scanSpecStep
            rw [if_neg (by omega), if_pos h1, if_neg h16, if_neg hsz]
          rw [dif_neg hsz, scanSpecFrom_emit hstep,
            scanFrom_eq_scanSpecFrom data (pos + readBE data (pos + 8) 8)]
    · rw [if_neg h1]
      by_cases h0 : readBE data pos 4 = 0
      · have hstep : scanSpecStep data pos = .emit (readTag data pos) data.length := by
          unfold scanSpecStep
          rw [if_neg (by omega), if_neg h1, if_pos h0]
        rw [if_pos h0, dif_neg (by omega : ¬ data.length - pos < 8)]
        have hnext : pos + (data.length - pos) = data.length := by omega
        rw [hnext, scanSpecFrom_emit hstep, scanFrom_eq_scanSpecFrom data data.length]
      · rw [if_neg h0]
        by_cases hsz : readBE data pos 4 < 8
        · have hstep : scanSpecStep data pos = .stop := by
            unfold scanSpecStep
            rw [if_neg (by omega), if_neg h1, if_neg h0, if_pos hsz]
          rw [dif_pos hsz, scanSpecFrom_stop hstep]
        · have hstep : scanSpecStep data pos
              = .emit (readTag data pos) (pos + readBE data pos 4) := by
            unfold scanSpecStep
            rw [if_neg (by omega), if_neg h1, if_neg h0, if_neg hsz]
          rw [dif_neg hsz, scanSpecFrom_emit hstep,
            scanFrom_eq_scanSpecFrom data (pos + readBE data pos 4)]
  · have hstep : scanSpecStep data pos = .stop := by
      unfold scanSpecStep
      rw [if_pos (by omega)]
    rw [dif_neg hle, scanSpecFrom_stop hstep]
termination_by data.length - pos
decreasing_by
  · omega
  · omega
  · omega

/-- Every tag the loop emits advances the cursor by at least 8 bytes, so
from cursor `pos` at most `(data.length - pos) / 8` tags are collected. -/
theorem scanFrom_length_le (data : List Nat) (pos : Nat) :
    8 * (scanFrom data pos).length ≤ data.length - pos := by
  rw [scanFrom]
  by_cases hle : pos + 8 ≤ data.length
  · rw [dif_pos hle]
    by_cases h1 : readBE data pos 4 = 1
    · rw [if_pos h1]
      by_cases h16 : pos + 16 > data.length
      · rw [dif_pos h16]; simp
      · rw [dif_neg h16]
        by_cases hsz : readBE data (pos + 8) 8 < 16
        · rw [dif_pos hsz]; simp
        · rw [dif_neg hsz]
          have ih := scanFrom_length_le data (pos + readBE data (pos + 8) 8)
          simp only [List.length_cons]
          omega
    · rw [if_neg h1]
      by_cases h0 : readBE data pos 4 = 0
      · rw [if_pos h0, dif_neg (by omega : ¬ data.length - pos < 8)]
        have ih := scanFrom_length_le data (pos + (data.length - pos))
        simp only [List.length_cons]
        omega
      · rw [if_neg h0]
        by_cases hsz : readBE data pos 4 < 8
        · rw [dif_pos hsz]; simp
        · rw [dif_neg hsz]
          have ih := scanFrom_length_le data (pos + readBE data pos 4)
          simp only [List.length_cons]
          omega
  · rw [dif_neg hle]; simp
termination_by data.length - pos
decreasing_by
  · omega
  · omega
  · omega

/-- A box buffer whose first box is `free` with the extends-to-end size
escape 0. -/
def demoTerminalBox : List Nat :=
  [0, 0, 0, 0, 102, 114, 101, 101, 1, 2, 3]

end VapMaster

namespace VapMaster

/-- C1: the top-level box scan follows the spec's algorithm at every
cursor position: 4-byte big-endian size; escape 1 switches to an 8-byte
size with a 16-byte header; escape 0 extends the box to end-of-file, a
terminal box whose tag is collected exactly once before the scan ends;
a declared size below the header size or an exhausted buffer stops the
scan with the tags collected so far; otherwise the cursor advances by
the full box size while at least 8 bytes remain. -/
theorem C1_scan_follows_spec :
    (∀ data : List Nat, list_top_level_atoms data = scanSpec data) ∧
    (∀ (data : List Nat) (pos : Nat), pos + 8 ≤ data.length →
      readBE data pos 4 = 0 → scanFrom data pos = [readTag data pos]) := by
  constructor
  · intro data
    exact scanFrom_eq_scanSpecFrom data 0
  · intro data pos hle h0
    rw [scanFrom, dif_pos hle, if_neg (by omega), if_pos h0,
      dif_neg (by omega : ¬ data.length - pos < 8)]
    rw [scanFrom, dif_neg (by omega)]

/-- Witness for C1: the scan of a terminal size-0 `free` box collects
that tag exactly once and stops. -/
theorem C1_scan_follows_spec_witness :
    scanFrom demoTerminalBox 0 = [readTag demoTerminalBox 0] :=
  C1_scan_follows_spec.2 demoTerminalBox 0 (by decide) (by decide)

/-- C2: `is_valid_mp4` returns true exactly when the file exists, has at
least 1024 bytes, the scan finds at least one box, the first box is
`ftyp` or `moov` is present, and both `moov` and `mdat` are present; in
particular any file under 1024 bytes is rejected regardless of content. -/
theorem C2_is_valid_mp4_characterization :
    (∀ file : Option (List Nat),
      is_valid_mp4 file = true ↔
        ∃ data, file = some data ∧ 1024 ≤ data.length ∧
          list_top_level_atoms data ≠ [] ∧
          ((list_top_level_atoms data).head? = some "ftyp" ∨
            "moov" ∈ list_top_level_atoms data) ∧
          "moov" ∈ list_top_level_atoms data ∧
          "mdat" ∈ list_top_level_atoms data) ∧
    (∀ data : List Nat, data.length < 1024 → is_valid_mp4 (some data) = false) := by
  have hchar : ∀ file : Option (List Nat),
      is_valid_mp4 file = true ↔
        ∃ data, file = some data ∧ 1024 ≤ data.length ∧
          list_top_level_atoms data ≠ [] ∧
          ((list_top_level_atoms data).head? = some "ftyp" ∨
            "moov" ∈ list_top_level_atoms data) ∧
          "moov" ∈ list_top_level_atoms data ∧
          "mdat" ∈ list_top_level_atoms data := by
    intro file
    cases file with
    | none => simp [is_valid_mp4]
    | some data =>
      simp only [Option.some.injEq, exists_eq_left']
      show (if data.length < 1024 then false
        else match list_top_level_atoms data with
          | [] => false
          | first :: rest =>
            if first ≠ "ftyp" ∧ "moov" ∉ first :: rest then false
            else if "moov" ∉ first :: rest ∨ "mdat" ∉ first :: rest then false
            else true) = true ↔ _
      by_cases hlen : data.length < 1024
      · rw [if_pos hlen]
        constructor
        · intro htrue
          exact absurd htrue (by simp)
        · rintro ⟨hge, -⟩
          omega
      · rw [if_neg hlen]
        cases hatoms : list_top_level_atoms data with
        | nil =>
          constructor
          · intro htrue
            exact absurd htrue (by simp)
          · rintro ⟨-, hne, -⟩
            exact absurd rfl hne
        | cons first rest =>
          show (if first ≠ "ftyp" ∧ "moov" ∉ first :: rest then false
            else if "moov" ∉ first :: rest ∨ "mdat" ∉ first :: rest then false
            else true) = true ↔ _
          constructor
          · intro htrue
            split_ifs at htrue with hA hB
            push_neg at hA hB
            refine ⟨by omega, by simp, ?_, hB.1, hB.2⟩
            by_cases hf : first = "ftyp"
            · exact Or.inl (by simp [hf])
            · exact Or.inr (hA hf)
          · rintro ⟨hge, -, hfirst, hmoov, hmdat⟩
            simp only [List.head?_cons, Option.some.injEq] at hfirst
            rw [if_neg, if_neg]
            · rintro (h | h)
              · exact h hmoov
              · exact h hmdat
            · rintro ⟨hne', hnm⟩
              rcases hfirst with hf | hm
              · exact hne' hf
              · exact hnm hm
  exact ⟨hchar, by
    intro data hlen
    have := hchar (some data)
    rcases h : is_valid_mp4 (some data) with _ | _
    · rfl
    · exfalso
      rw [h] at this
      obtain ⟨d, hd, hge, -⟩ := this.mp rfl
      cases hd
      omega⟩

/-- Witness for C2: the empty file is under 1024 bytes and invalid. -/
theorem C2_is_valid_mp4_characterization_witness :
    is_valid_mp4 (some []) = false :=
  C2_is_valid_mp4_characterization.2 [] (by decide)

/-- C10: the box scan is a total function into finite tag lists (it is
defined for every byte buffer), and because each collected tag advances
the cursor by at least 8 bytes it collects at most `length / 8` tags. -/
theorem C10_scan_total_bounded (data : List Nat) :
    8 * (list_top_level_atoms data).length ≤ data.length := by
  have := scanFrom_length_le data 0
  simpa [list_top_level_atoms] using this

/-! ## Frame sequence normalization

Filenames are `List Char`; a source directory is a `List SrcFile`, one
entry per directory entry, in the iteration order of `iterdir()`.  The
PNG header probe `read_png_size` is modelled by the recorded dimensions
plus an `isPng` flag covering its signature/IHDR checks. -/

/-- One directory entry of the source folder: its name, whether it is a
regular file, whether it carries a well-formed PNG signature and IHDR
chunk, and the header dimensions. -/
structure SrcFile where
  name : List Char
  isFile : Bool
  isPng : Bool
  width : Nat
  height : Nat

/-- Numeric value of a most-significant-first decimal digit string,
exactly Python's `int` on a digit-only string. -/
def digitsVal (ds : List Char) : Nat :=
  ds.foldl (fun a c => a * 10 + (c.toNat - 48)) 0

/-- `str.lower()` on a filename (ASCII case folding suffices for the
ASCII pattern `.png`). -/
def lowerName (s : List Char) : List Char :=
  s.map Char.toLower

/-- Embedding of `get_suffix` (src/vap_master.py lines 47-49):
`re.search(r"(\d+)\.png$", filename, re.IGNORECASE)` matches a nonempty
trailing run of decimal digits immediately before a case-insensitive
`.png` suffix at the end of the name; the run's value is returned, `-1`
when nothing matches. -/
def get_suffix (name : List Char) : Int :=
  if ".png".data.isSuffixOf (lowerName name) then
    if hds : ((name.take (name.length - 4)).reverse.takeWhile Char.isDigit) = [] then
      -1
    else
      (digitsVal ((name.take (name.length - 4)).reverse.takeWhile Char.isDigit).reverse : Int)
  else -1

/-- Embedding of `list_png_frames` (src/vap_master.py lines 52-56):
regular files whose lowercased name ends in `.png`, kept only when a
digit suffix parses, sorted stably by that suffix (Python's stable
`list.sort(key=get_suffix)` and `List.mergeSort` agree on every input
because both are stable). -/
def list_png_frames (folder : List SrcFile) : List (List Char) :=
  let files := (folder.filter
    (fun p => p.isFile && ".png".data.isSuffixOf (lowerName p.name))).map (·.name)
  let files2 := files.filter (fun f => get_suffix f ≠ -1)
  files2.mergeSort (fun a b => decide (get_suffix a ≤ get_suffix b))

/-- Embedding of `read_png_size` (src/vap_master.py lines 59-70): the
signature and IHDR checks are summarized by `isPng`; on success the
header width and height are returned. -/
def read_png_size (f : SrcFile) : Except String (Nat × Nat) :=
  if f.isPng then .ok (f.width, f.height) else .error "Not a PNG file"

/-- One produced frame of the normalized set: either a reference to the
source bytes (symlink, or copy on `OSError`) or a fresh ffmpeg crop. -/
inductive FrameOut where
  | linked (dst : List Char) (src : List Char)
  | cropped (dst : List Char) (src : List Char)
deriving DecidableEq

def FrameOut.dst : FrameOut → List Char
  | .linked d _ => d
  | .cropped d _ => d

def FrameOut.src : FrameOut → List Char
  | .linked _ s => s
  | .cropped _ s => s

/-- Decimal digit characters of `n`, most significant first (`str(n)`
for a natural number). -/
def natChars (n : Nat) : List Char :=
  if n = 0 then ['0']
  else (Nat.digits 10 n).reverse.map (fun d => Char.ofNat (48 + d))

/-- Python's `f"{idx:03d}"`: the decimal digits of `idx`, left-padded
with zeros to a minimum width of 3. -/
def pad3 (n : Nat) : List Char :=
  List.replicate (3 - (natChars n).length) '0' ++ natChars n

/-- `src_folder / frame_name` opened for reading: the first directory
entry with that name. -/
def findFile (folder : List SrcFile) (name : List Char) : Option SrcFile :=
  folder.find? (fun p => p.name = name)

/-- Embedding of the loop of `normalize_frames` (src/vap_master.py lines
75-102) from index `idx`: each listed frame is opened, its header probed,
its width forced to 1008; height 1334 is linked or copied into
`{idx:03d}.png`, height 1344 is cropped there by the external ffmpeg
call, and any other height aborts. -/
def normalizeFrom (folder : List SrcFile) : Nat → List (List Char) →
    Except String (List FrameOut)
  | _, [] => .ok []
  | idx, frame_name :: restNames =>
    match findFile folder frame_name with
    | none => .error "No such file or directory"
    | some f =>
      match read_png_size f with
      | .error e => .error e
      | .ok (width, height) =>
        if width ≠ 1008 then .error "Frame width must be 1008"
        else if height = 1334 then
          match normalizeFrom folder (idx + 1) restNames with
          | .error e => .error e
          | .ok rest => .ok (.linked (pad3 idx ++ ".png".data) frame_name :: rest)
        else if height = 1344 then
          match normalizeFrom folder (idx + 1) restNames with
          | .error e => .error e
          | .ok rest => .ok (.cropped (pad3 idx ++ ".png".data) frame_name :: rest)
        else .error "Frame height must be 1334 or 1344"

/-- Embedding of `normalize_frames` (src/vap_master.py lines 73-102):
`for idx, frame_name in enumerate(png_files)`. -/
def normalize_frames (folder : List SrcFile) (png_files : List (List Char)) :
    Except String (List FrameOut) :=
  normalizeFrom folder 0 png_files

theorem normalizeFrom_ok (folder : List SrcFile) (names : List (List Char)) (idx : Nat)
    (h : ∀ x ∈ names, ∃ f, findFile folder x = some f ∧ f.isPng = true ∧
      f.width = 1008 ∧ (f.height = 1334 ∨ f.height = 1344)) :
    ∃ outs, normalizeFrom folder idx names = .ok outs ∧
      outs.map FrameOut.dst =
        (List.range' idx names.length).map (fun i => pad3 i ++ ".png".data) ∧
      outs.map FrameOut.src = names := by
  induction names generalizing idx with
  | nil => exact ⟨[], rfl, rfl, rfl⟩
  | cons x rest ih =>
    obtain ⟨f, hfind, hpng, hw, hh⟩ := h x (by simp)
    obtain ⟨outs, hok, hdst, hsrc⟩ := ih (idx + 1) (fun y hy => h y (by simp [hy]))
    rcases hh with hh | hh
    · refine ⟨.linked (pad3 idx ++ ".png".data) x :: outs, ?_, ?_, ?_⟩
      · simp [normalizeFrom, hfind, read_png_size, hpng, hw, hh, hok]
      · simpa [List.range'_succ, FrameOut.dst] using hdst
      · simpa [FrameOut.src] using hsrc
    · refine ⟨.cropped (pad3 idx ++ ".png".data) x :: outs, ?_, ?_, ?_⟩
      · simp [normalizeFrom, hfind, read_png_size, hpng, hw, hh, hok]
      · simpa [List.range'_succ, FrameOut.dst] using hdst
      · simpa [FrameOut.src] using hsrc

theorem mem_list_png_frames {folder : List SrcFile} {x : List Char}
    (hx : x ∈ list_png_frames folder) :
    (∃ p ∈ folder, p.name = x ∧ p.isFile = true ∧
      ".png".data.isSuffixOf (lowerName x) = true) ∧ get_suffix x ≠ -1 := by
  unfold list_png_frames at hx
  rw [List.mem_mergeSort] at hx
  simp only [List.mem_filter, List.mem_map, List.mem_filter] at hx
  obtain ⟨⟨p, ⟨hmem, hp⟩, rfl⟩, hsuf⟩ := hx
  rw [Bool.and_eq_true] at hp
  refine ⟨⟨p, hmem, rfl, hp.1, hp.2⟩, by simpa using hsuf⟩

/-- C5: on a valid frame sequence — every candidate frame (regular file,
`.png` suffix, parseable digit suffix) is a 1008-wide PNG of height 1334
or 1344 — normalization succeeds and produces exactly one output frame
per selected source frame, named `000.png`, `001.png`, ... with the
dense zero-padded index 0..N-1, assigned in ascending order of the
source frames' numeric suffixes. -/
theorem C5_normalization (folder : List SrcFile)
    (hvalid : ∀ f ∈ folder, ".png".data.isSuffixOf (lowerName f.name) = true →
      get_suffix f.name ≠ -1 →
      f.isPng = true ∧ f.width = 1008 ∧ (f.height = 1334 ∨ f.height = 1344)) :
    ∃ outs, normalize_frames folder (list_png_frames folder) = .ok outs ∧
      outs.length = (list_png_frames folder).length ∧
      outs.map FrameOut.dst =
        (List.range (list_png_frames folder).length).map (fun i => pad3 i ++ ".png".data) ∧
      outs.map FrameOut.src = list_png_frames folder ∧
      (list_png_frames folder).Sorted (fun a b => get_suffix a ≤ get_suffix b) := by
  have hmem : ∀ x ∈ list_png_frames folder, ∃ f, findFile folder x = some f ∧
      f.isPng = true ∧ f.width = 1008 ∧ (f.height = 1334 ∨ f.height = 1344) := by
    intro x hx
    obtain ⟨⟨p, hmem, hname, -, hsufx⟩, hs⟩ := mem_list_png_frames hx
    have hsome : (findFile folder x).isSome := by
      rw [findFile, List.find?_isSome]
      exact ⟨p, hmem, by simp [hname]⟩
    obtain ⟨f, hf⟩ := Option.isSome_iff_exists.mp hsome
    have hfx : f.name = x := by
      have := List.find?_some hf
      simpa using this
    have hfmem : f ∈ folder := List.mem_of_find?_eq_some hf
    have := hvalid f hfmem (by rw [hfx]; exact hsufx) (by rw [hfx]; exact hs)
    exact ⟨f, hf, this⟩
  obtain ⟨outs, hok, hdst, hsrc⟩ :=
    normalizeFrom_ok folder (list_png_frames folder) 0 hmem
  refine ⟨outs, hok, ?_, ?_, hsrc, ?_⟩
  · have := congrArg List.length hsrc
    simpa using this
  · simpa [List.range_eq_range'] using hdst
  · have hsorted := @List.sorted_mergeSort (List Char)
      (fun a b : List Char => decide (get_suffix a ≤ get_suffix b))
      (fun a b c hab hbc => by
        simp only [decide_eq_true_eq] at *
        omega)
      (fun a b => by
        simp only [Bool.or_eq_true, decide_eq_true_eq]
        omega)
      ((folder.filter
        (fun p => p.isFile && ".png".data.isSuffixOf (lowerName p.name))).map (·.name)
        |>.filter (fun f => get_suffix f ≠ -1))
    unfold list_png_frames
    exact hsorted.imp (fun h => by simpa using h)

/-- A small concrete source directory: two valid frames with unordered,
non-contiguous suffixes, one of each accepted height. -/
def demoFolder : List SrcFile :=
  [⟨"a_00007.png".data, true, true, 1008, 1334⟩,
   ⟨"a_00002.png".data, true, true, 1008, 1344⟩]

/-- Witness for C5 at the concrete two-frame directory. -/
theorem C5_normalization_witness :
    ∃ outs, normalize_frames demoFolder (list_png_frames demoFolder) = .ok outs ∧
      outs.length = (list_png_frames demoFolder).length ∧
      outs.map FrameOut.dst =
        (List.range (list_png_frames demoFolder).length).map
          (fun i => pad3 i ++ ".png".data) ∧
      outs.map FrameOut.src = list_png_frames demoFolder ∧
      (list_png_frames demoFolder).Sorted (fun a b => get_suffix a ≤ get_suffix b) :=
  C5_normalization demoFolder (by decide)

end VapMaster

namespace VapMaster

/-! ## The JSON data model

`json.load` maps a JSON document to `None`/`bool`/`int`/`float`/`str`/
`list`/`dict`.  The embedding represents that value space as a mutual
inductive.  A Python `float` is a finite decimal number, represented as
`float m e` with value `m / 10 ^ (e + 1)` (the digits around the decimal
point of its literal); non-finite floats (`NaN`, `Infinity`), which no
artifact of this pipeline contains, are outside the model.  Dictionaries
are key-ordered association lists, matching Python's insertion-ordered
`dict` (keys are unique in every dictionary `json.load` can produce, and
all operations below use first-occurrence semantics, which agrees with
`dict` on unique keys). -/

mutual
inductive Json where
  | null
  | bool (b : Bool)
  | int (i : Int)
  | float (m : Int) (e : Nat)
  | str (s : String)
  | arr (elems : JsonList)
  | obj (fields : JsonFields)

inductive JsonList where
  | nil
  | cons (hd : Json) (tl : JsonList)

inductive JsonFields where
  | nil
  | cons (key : String) (val : Json) (tl : JsonFields)
end

/-- `d[k]` lookup on a Python dict (first occurrence). -/
def JsonFields.get : JsonFields → String → Option Json
  | .nil, _ => none
  | .cons k v tl, key => if k = key then some v else JsonFields.get tl key

/-- `d.get(k)` on a Python dict: missing keys give `None` (JSON null). -/
def JsonFields.getJ (fs : JsonFields) (key : String) : Json :=
  (fs.get key).getD .null

/-- `d[k] = v` on a Python dict: replace in place when the key exists,
append at the end otherwise. -/
def JsonFields.set : JsonFields → String → Json → JsonFields
  | .nil, key, val => .cons key val .nil
  | .cons k v tl, key, val =>
    if k = key then .cons key val tl else .cons k v (JsonFields.set tl key val)

/-- `len` of a JSON array. -/
def JsonList.length : JsonList → Nat
  | .nil => 0
  | .cons _ tl => tl.length + 1

/-- `xs[i]` on a JSON array, with a default for the out-of-range case
(the source only indexes after checking the length). -/
def JsonList.getD : JsonList → Nat → Json → Json
  | .nil, _, d => d
  | .cons x _, 0, _ => x
  | .cons _ tl, n + 1, d => JsonList.getD tl n d

/-- `xs.all p` over a JSON array. -/
def JsonList.all (p : Json → Bool) : JsonList → Bool
  | .nil => true
  | .cons x tl => p x && JsonList.all p tl

/-- Embedding of `_require_dict` (src/vap_master.py lines 165-168). -/
def _require_dict : Json → String → Except String JsonFields
  | .obj fs, _ => .ok fs
  | _, ctx => .error ("Expected dict for " ++ ctx)

/-- Embedding of `_require_list` (src/vap_master.py lines 171-174). -/
def _require_list : Json → String → Except String JsonList
  | .arr xs, _ => .ok xs
  | _, ctx => .error ("Expected list for " ++ ctx)

/-- Embedding of `_require_int` (src/vap_master.py lines 177-180):
Python's `bool` is a subclass of `int`, which the source rejects first;
here booleans are a separate constructor, so only `int` passes. -/
def _require_int : Json → String → Except String Int
  | .int i, _ => .ok i
  | _, ctx => .error ("Expected int for " ++ ctx)

/-- Embedding of `_require_float` (src/vap_master.py lines 183-188):
booleans rejected, `int` and `float` widened to an exact rational. -/
def _require_float : Json → String → Except String Rat
  | .int i, _ => .ok (i : Rat)
  | .float m e, _ => .ok ((m : Rat) / (10 : Rat) ^ (e + 1))
  | _, ctx => .error ("Expected number for " ++ ctx)

/-- Embedding of the `VapcParsed` dataclass (src/vap_master.py lines
191-197). -/
structure VapcParsed where
  vapc_json : JsonFields
  frame_count : Int
  fps : Rat
  a_frame : Int × Int × Int × Int
  rgb_frame : Int × Int × Int × Int

/-- Embedding of `parse_vapc_json` (src/vap_master.py lines 200-227) on
the loaded JSON document (`json.load` already done); each statement that
may raise becomes a monadic bind. -/
def parse_vapc_json (j : Json) : Except String VapcParsed := do
  let vapc_json ← _require_dict j "vapc.json"
  let info ← _require_dict (vapc_json.getJ "info") "vapc.json.info"
  let frame_count ← _require_int (info.getJ "f") "vapc.json.info.f"
  let fps ← _require_float (info.getJ "fps") "vapc.json.info.fps"
  let a_frame_raw ← _require_list (info.getJ "aFrame") "vapc.json.info.aFrame"
  let rgb_frame_raw ← _require_list (info.getJ "rgbFrame") "vapc.json.info.rgbFrame"
  if a_frame_raw.length ≠ 4 ∨ rgb_frame_raw.length ≠ 4 then
    .error "Invalid aFrame/rgbFrame"
  else do
    let a0 ← _require_int (a_frame_raw.getD 0 .null) "vapc.json.info.aFrame[0]"
    let a1 ← _require_int (a_frame_raw.getD 1 .null) "vapc.json.info.aFrame[1]"
    let a2 ← _require_int (a_frame_raw.getD 2 .null) "vapc.json.info.aFrame[2]"
    let a3 ← _require_int (a_frame_raw.getD 3 .null) "vapc.json.info.aFrame[3]"
    let r0 ← _require_int (rgb_frame_raw.getD 0 .null) "vapc.json.info.rgbFrame[0]"
    let r1 ← _require_int (rgb_frame_raw.getD 1 .null) "vapc.json.info.rgbFrame[1]"
    let r2 ← _require_int (rgb_frame_raw.getD 2 .null) "vapc.json.info.rgbFrame[2]"
    let r3 ← _require_int (rgb_frame_raw.getD 3 .null) "vapc.json.info.rgbFrame[3]"
    .ok { vapc_json := vapc_json, frame_count := frame_count, fps := fps,
          a_frame := (a0, a1, a2, a3), rgb_frame := (r0, r1, r2, r3) }

/-- `isinstance(x, (int, float)) and not isinstance(x, bool)`: the values
`_require_float` accepts. -/
def isNumberJson : Json → Bool
  | .int _ => true
  | .float _ _ => true
  | _ => false

/-- `isinstance(x, int) and not isinstance(x, bool)`: the values
`_require_int` accepts. -/
def isIntJson : Json → Bool
  | .int _ => true
  | _ => false

/-- The defect-free descriptor documents of claim C9: a JSON object whose
`info` is an object with an integer `f` (booleans are the wrong kind), a
numeric `fps` (booleans are the wrong kind), and two rectangle entries
that are lists of exactly 4 integers. -/
def IsGoodDescriptor (j : Json) : Prop :=
  ∃ fields info, j = .obj fields ∧ fields.getJ "info" = .obj info ∧
    (∃ i, info.getJ "f" = .int i) ∧
    isNumberJson (info.getJ "fps") = true ∧
    (∃ a, info.getJ "aFrame" = .arr a ∧ a.length = 4 ∧ a.all isIntJson = true) ∧
    (∃ r, info.getJ "rgbFrame" = .arr r ∧ r.length = 4 ∧ r.all isIntJson = true)

theorem except_bind_ok_iff {α β : Type} {e : Except String α} {k : α → Except String β}
    {b : β} : (e >>= k) = .ok b ↔ ∃ a, e = .ok a ∧ k a = .ok b := by
  cases e <;> simp [Bind.bind, Except.bind]

theorem _require_dict_ok {j : Json} {ctx : String} {fs : JsonFields} :
    _require_dict j ctx = .ok fs ↔ j = .obj fs := by
  cases j <;> simp [_require_dict]

theorem _require_list_ok {j : Json} {ctx : String} {xs : JsonList} :
    _require_list j ctx = .ok xs ↔ j = .arr xs := by
  cases j <;> simp [_require_list]

theorem _require_int_ok {j : Json} {ctx : String} {i : Int} :
    _require_int j ctx = .ok i ↔ j = .int i := by
  cases j <;> simp [_require_int]

theorem _require_float_isOk_iff {j : Json} {ctx : String} :
    (∃ q, _require_float j ctx = .ok q) ↔ isNumberJson j = true := by
  cases j <;> simp [_require_float, isNumberJson]

theorem isIntJson_exists {x : Json} (h : isIntJson x = true) : ∃ i, x = .int i := by
  cases x <;> simp_all [isIntJson]

theorem jsonList_length_four {xs : JsonList} (h : xs.length = 4) :
    ∃ a b c d, xs = .cons a (.cons b (.cons c (.cons d .nil))) := by
  cases xs with
  | nil => simp [JsonList.length] at h
  | cons a t1 =>
    cases t1 with
    | nil => simp [JsonList.length] at h
    | cons b t2 =>
      cases t2 with
      | nil => simp [JsonList.length] at h
      | cons c t3 =>
        cases t3 with
        | nil => simp [JsonList.length] at h
        | cons d t4 =>
          cases t4 with
          | nil => exact ⟨a, b, c, d, rfl⟩
          | cons e t5 => simp [JsonList.length] at h

/-- The characterization used by C9 (and by the amended C4): parsing
succeeds exactly on defect-free documents. -/
theorem parse_ok_iff_good (j : Json) :
    (∃ d, parse_vapc_json j = .ok d) ↔ IsGoodDescriptor j := by
  constructor
  · rintro ⟨d, hd⟩
    unfold parse_vapc_json at hd
    obtain ⟨vj, hvj, hd⟩ := except_bind_ok_iff.mp hd
    obtain ⟨info, hinfo, hd⟩ := except_bind_ok_iff.mp hd
    obtain ⟨fc, hfc, hd⟩ := except_bind_ok_iff.mp hd
    obtain ⟨fps, hfps, hd⟩ := except_bind_ok_iff.mp hd
    obtain ⟨a_raw, ha, hd⟩ := except_bind_ok_iff.mp hd
    obtain ⟨r_raw, hr, hd⟩ := except_bind_ok_iff.mp hd
    split_ifs at hd with hlen
    push_neg at hlen
    obtain ⟨a0, ha0, hd⟩ := except_bind_ok_iff.mp hd
    obtain ⟨a1, ha1, hd⟩ := except_bind_ok_iff.mp hd
    obtain ⟨a2, ha2, hd⟩ := except_bind_ok_iff.mp hd
    obtain ⟨a3, ha3, hd⟩ := except_bind_ok_iff.mp hd
    obtain ⟨r0, hr0, hd⟩ := except_bind_ok_iff.mp hd
    obtain ⟨r1, hr1, hd⟩ := except_bind_ok_iff.mp hd
    obtain ⟨r2, hr2, hd⟩ := except_bind_ok_iff.mp hd
    obtain ⟨r3, hr3, hd⟩ := except_bind_ok_iff.mp hd
    refine ⟨vj, info, _require_dict_ok.mp hvj, _require_dict_ok.mp hinfo,
      ⟨fc, _require_int_ok.mp hfc⟩, _require_float_isOk_iff.mp ⟨fps, hfps⟩,
      ⟨a_raw, _require_list_ok.mp ha, hlen.1, ?_⟩,
      ⟨r_raw, _require_list_ok.mp hr, hlen.2, ?_⟩⟩
    · obtain ⟨a, b, c, d', rfl⟩ := jsonList_length_four hlen.1
      rw [_require_int_ok] at ha0 ha1 ha2 ha3
      simp only [JsonList.getD] at ha0 ha1 ha2 ha3
      simp [JsonList.all, ha0, ha1, ha2, ha3, isIntJson]
    · obtain ⟨a, b, c, d', rfl⟩ := jsonList_length_four hlen.2
      rw [_require_int_ok] at hr0 hr1 hr2 hr3
      simp only [JsonList.getD] at hr0 hr1 hr2 hr3
      simp [JsonList.all, hr0, hr1, hr2, hr3, isIntJson]
  · rintro ⟨vj, info, rfl, hinfo, ⟨fc, hfc⟩, hfps, ⟨a_raw, haeq, halen, haints⟩,
      ⟨r_raw, hreq, hrlen, hrints⟩⟩
    obtain ⟨fps, hfpsok⟩ :=
      (@_require_float_isOk_iff (info.getJ "fps") "vapc.json.info.fps").mpr hfps
    obtain ⟨a0, a1, a2, a3, rfl⟩ := jsonList_length_four halen
    obtain ⟨r0, r1, r2, r3, rfl⟩ := jsonList_length_four hrlen
    simp only [JsonList.all, Bool.and_eq_true, and_true] at haints hrints
    obtain ⟨ha0, ha1, ha2, ha3⟩ := haints
    obtain ⟨hr0, hr1, hr2, hr3⟩ := hrints
    obtain ⟨ia0, rfl⟩ := isIntJson_exists ha0
    obtain ⟨ia1, rfl⟩ := isIntJson_exists ha1
    obtain ⟨ia2, rfl⟩ := isIntJson_exists ha2
    obtain ⟨ia3, rfl⟩ := isIntJson_exists ha3
    obtain ⟨ir0, rfl⟩ := isIntJson_exists hr0
    obtain ⟨ir1, rfl⟩ := isIntJson_exists hr1
    obtain ⟨ir2, rfl⟩ := isIntJson_exists hr2
    obtain ⟨ir3, rfl⟩ := isIntJson_exists hr3
    refine ⟨⟨vj, fc, fps, (ia0, ia1, ia2, ia3), (ir0, ir1, ir2, ir3)⟩, ?_⟩
    unfold parse_vapc_json
    simp [Bind.bind, Except.bind, hinfo, hfc, hfpsok, haeq, hreq,
      _require_dict, _require_int, _require_list, JsonList.length, JsonList.getD]

/-- C9: descriptor parsing fails with a malformed-descriptor error exactly
when the document is not an object, `info` is missing or not an object,
`f` is missing or not an integer (booleans are the wrong kind), `fps` is
missing or not a number (booleans are the wrong kind), or a rectangle
entry is missing, not a list, not of length 4, or has a non-integer
element; on every defect-free document parsing succeeds. -/
theorem C9_parse_error_characterization (j : Json) :
    ((∃ d, parse_vapc_json j = Except.ok d) ↔ IsGoodDescriptor j) ∧
    ((∃ e, parse_vapc_json j = Except.error e) ↔ ¬ IsGoodDescriptor j) := by
  refine ⟨parse_ok_iff_good j, ?_⟩
  rcases hp : parse_vapc_json j with e | d
  · constructor
    · intro _ hg
      obtain ⟨d, hd⟩ := (parse_ok_iff_good j).mpr hg
      rw [hp] at hd
      cases hd
    · intro _
      exact ⟨e, rfl⟩
  · constructor
    · rintro ⟨e, he⟩
      exact absurd he (by simp)
    · intro hng
      exact absurd ((parse_ok_iff_good j).mp ⟨d, hp⟩) hng

/-! ## The region-swap geometry gate -/

/-- The geometry data `swap_video_regions` computes before delegating to
ffmpeg (src/vap_master.py lines 247-263): the clip duration, the two
source rectangles, the fixed 2016x1334 output canvas, and the left/right
placement offsets.  The ffmpeg command construction itself is external
plumbing. -/
structure SwapSpec where
  dur : Rat
  a_src : Int × Int × Int × Int
  rgb_src : Int × Int × Int × Int
  out_w : Nat
  out_h : Nat
  alpha_dst : Nat × Nat
  rgb_dst : Nat × Nat

/-- Embedding of the metadata gate and geometry arithmetic of
`swap_video_regions` (src/vap_master.py lines 236-263): reject a
non-positive frame count or fps, otherwise compute the swap geometry. -/
def swap_video_regions (vapc : VapcParsed) : Except String SwapSpec :=
  if vapc.frame_count ≤ 0 ∨ vapc.fps ≤ 0 then
    .error "Invalid frame metadata in vapc info"
  else
    .ok { dur := (vapc.frame_count : Rat) / vapc.fps,
          a_src := vapc.a_frame, rgb_src := vapc.rgb_frame,
          out_w := 2016, out_h := 1334,
          alpha_dst := (0, 0), rgb_dst := (1008, 0) }

/-- A 4-integer JSON rectangle. -/
def intQuad (a b c d : Int) : JsonList :=
  .cons (.int a) (.cons (.int b) (.cons (.int c) (.cons (.int d) .nil)))

/-- A descriptor document with frame count 0 that `parse_vapc_json`
accepts. -/
def zeroFrameDoc : Json :=
  .obj (.cons "info" (.obj
    (.cons "f" (.int 0)
    (.cons "fps" (.int 25)
    (.cons "aFrame" (.arr (intQuad 0 0 1008 1334))
    (.cons "rgbFrame" (.arr (intQuad 1008 0 1008 1334)) .nil))))) .nil)

/-- The value `parse_vapc_json` produces on `zeroFrameDoc`. -/
def zeroFrameParsed : VapcParsed :=
  { vapc_json := .cons "info" (.obj
      (.cons "f" (.int 0)
      (.cons "fps" (.int 25)
      (.cons "aFrame" (.arr (intQuad 0 0 1008 1334))
      (.cons "rgbFrame" (.arr (intQuad 1008 0 1008 1334)) .nil))))) .nil,
    frame_count := 0, fps := ((25 : Int) : Rat),
    a_frame := (0, 0, 1008, 1334), rgb_frame := (1008, 0, 1008, 1334) }

/-- Counterexample to C4 as stated: a successful parse whose frame count
is 0, not strictly positive — `parse_vapc_json` does not check
positivity. -/
theorem C4_counterexample_parse_accepts_zero :
    parse_vapc_json zeroFrameDoc = Except.ok zeroFrameParsed ∧
      ¬ 0 < zeroFrameParsed.frame_count :=
  ⟨rfl, by decide⟩

/-- C4 as amended: a successful parse guarantees the structural part of
the invariant (the document is well-shaped, in particular both rectangle
arrays have exactly 4 integer components), while the positivity of `f`
and `fps` is enforced not at parse time but by `swap_video_regions`,
which succeeds exactly when both are strictly positive. -/
theorem C4_corrected_invariant (j : Json) (d : VapcParsed)
    (h : parse_vapc_json j = Except.ok d) :
    IsGoodDescriptor j ∧
    ((∃ s, swap_video_regions d = Except.ok s) ↔ 0 < d.frame_count ∧ 0 < d.fps) := by
  refine ⟨(parse_ok_iff_good j).mp ⟨d, h⟩, ?_⟩
  unfold swap_video_regions
  split_ifs with hneg
  · constructor
    · rintro ⟨s, hs⟩
      cases hs
    · rintro ⟨h1, h2⟩
      rcases hneg with hle | hle
      · exact absurd h1 (not_lt.mpr hle)
      · exact absurd h2 (not_lt.mpr hle)
  · push_neg at hneg
    exact iff_of_true ⟨_, rfl⟩ hneg

/-- A defect-free descriptor document with positive `f` and `fps`. -/
def goodFrameDoc : Json :=
  .obj (.cons "info" (.obj
    (.cons "f" (.int 50)
    (.cons "fps" (.int 25)
    (.cons "aFrame" (.arr (intQuad 0 0 1008 1334))
    (.cons "rgbFrame" (.arr (intQuad 1008 0 1008 1334)) .nil))))) .nil)

/-- The value `parse_vapc_json` produces on `goodFrameDoc`. -/
def goodFrameParsed : VapcParsed :=
  { vapc_json := .cons "info" (.obj
      (.cons "f" (.int 50)
      (.cons "fps" (.int 25)
      (.cons "aFrame" (.arr (intQuad 0 0 1008 1334))
      (.cons "rgbFrame" (.arr (intQuad 1008 0 1008 1334)) .nil))))) .nil,
    frame_count := 50, fps := ((25 : Int) : Rat),
    a_frame := (0, 0, 1008, 1334), rgb_frame := (1008, 0, 1008, 1334) }

/-- Witness for the amended C4 at a concrete accepted descriptor. -/
theorem C4_corrected_invariant_witness :
    IsGoodDescriptor goodFrameDoc ∧
    ((∃ s, swap_video_regions goodFrameParsed = Except.ok s) ↔
      0 < goodFrameParsed.frame_count ∧ 0 < goodFrameParsed.fps) :=
  C4_corrected_invariant goodFrameDoc goodFrameParsed rfl

/-! ## The geometry rewrite of the final descriptor -/

/-- The fixed alpha rectangle `[0, 0, 1008, 1334]`. -/
def rect_aFrame : Json := .arr (intQuad 0 0 1008 1334)

/-- The fixed RGB rectangle `[1008, 0, 1008, 1334]`. -/
def rect_rgbFrame : Json := .arr (intQuad 1008 0 1008 1334)

/-- Embedding of the descriptor rewrite at the head of
`write_final_with_vapc` (src/vap_master.py lines 299-307): copy the
parsed JSON object (`dict(...)` on an association list is the identity),
overwrite `videoW`, `videoH`, `aFrame`, `rgbFrame` inside `info`, and
store the updated `info` back under its key. -/
def updated_vapc_json (vapc_json : JsonFields) : Except String JsonFields :=
  match _require_dict (vapc_json.getJ "info") "vapc.json.info" with
  | .error e => .error e
  | .ok info =>
    .ok (vapc_json.set "info" (.obj
      ((((info.set "videoW" (.int 2016)).set "videoH" (.int 1334)).set
        "aFrame" rect_aFrame).set "rgbFrame" rect_rgbFrame)))

theorem JsonFields.get_set_same : ∀ (fs : JsonFields) (k : String) (v : Json),
    (fs.set k v).get k = some v
  | .nil, k, v => by simp [JsonFields.set, JsonFields.get]
  | .cons k' v' tl, k, v => by
    by_cases h : k' = k
    · simp [JsonFields.set, JsonFields.get, h]
    · simp [JsonFields.set, JsonFields.get, h, JsonFields.get_set_same tl k v]

theorem JsonFields.get_set_ne : ∀ (fs : JsonFields) {k k2 : String} (v : Json),
    k2 ≠ k → (fs.set k v).get k2 = fs.get k2
  | .nil, k, k2, v, hne => by
    have hne' : ¬ k = k2 := fun h => hne h.symm
    simp [JsonFields.set, JsonFields.get, hne']
  | .cons k' v' tl, k, k2, v, hne => by
    by_cases h : k' = k
    · subst h
      have hne' : ¬ k' = k2 := fun h => hne h.symm
      simp [JsonFields.set, JsonFields.get, hne']
    · by_cases h2 : k' = k2
      · simp [JsonFields.set, JsonFields.get, h, h2, hne]
      · simp [JsonFields.set, JsonFields.get, h, h2, hne,
          JsonFields.get_set_ne tl v hne]

/-- C6: for every parsed descriptor (its `info` is an object), the
geometry rewrite succeeds and produces a document whose `info.videoW` is
2016, `info.videoH` is 1334, `info.aFrame` is `[0,0,1008,1334]` and
`info.rgbFrame` is `[1008,0,1008,1334]`, while every other key — at top
level and inside `info` — keeps exactly its previous value. -/
theorem C6_geometry_rewrite (vj info : JsonFields)
    (h : vj.getJ "info" = Json.obj info) :
    ∃ u info2, updated_vapc_json vj = .ok u ∧
      u.get "info" = some (Json.obj info2) ∧
      info2.get "videoW" = some (Json.int 2016) ∧
      info2.get "videoH" = some (Json.int 1334) ∧
      info2.get "aFrame" = some rect_aFrame ∧
      info2.get "rgbFrame" = some rect_rgbFrame ∧
      (∀ k, k ≠ "videoW" → k ≠ "videoH" → k ≠ "aFrame" → k ≠ "rgbFrame" →
        info2.get k = info.get k) ∧
      (∀ k, k ≠ "info" → u.get k = vj.get k) := by
  refine ⟨vj.set "info" (.obj
      ((((info.set "videoW" (.int 2016)).set "videoH" (.int 1334)).set
        "aFrame" rect_aFrame).set "rgbFrame" rect_rgbFrame)),
    (((info.set "videoW" (.int 2016)).set "videoH" (.int 1334)).set
        "aFrame" rect_aFrame).set "rgbFrame" rect_rgbFrame,
    ?_, ?_, ?_, ?_, ?_, ?_, ?_, ?_⟩
  · simp [updated_vapc_json, h, _require_dict]
  · exact JsonFields.get_set_same vj "info" _
  · rw [JsonFields.get_set_ne _ _ (by decide), JsonFields.get_set_ne _ _ (by decide),
      JsonFields.get_set_ne _ _ (by decide)]
    exact JsonFields.get_set_same info "videoW" _
  · rw [JsonFields.get_set_ne _ _ (by decide), JsonFields.get_set_ne _ _ (by decide)]
    exact JsonFields.get_set_same _ "videoH" _
  · rw [JsonFields.get_set_ne _ _ (by decide)]
    exact JsonFields.get_set_same _ "aFrame" _
  · exact JsonFields.get_set_same _ "rgbFrame" _
  · intro k h1 h2 h3 h4
    rw [JsonFields.get_set_ne _ _ h4, JsonFields.get_set_ne _ _ h3,
      JsonFields.get_set_ne _ _ h2, JsonFields.get_set_ne _ _ h1]
  · intro k hk
    exact JsonFields.get_set_ne _ _ hk

/-- A concrete parsed descriptor document with extra keys at top level
and inside `info`. -/
def demoVapcFields : JsonFields :=
  .cons "info" (.obj
    (.cons "f" (.int 50)
    (.cons "fps" (.float 255 0)
    (.cons "aFrame" (.arr (intQuad 0 0 504 667))
    (.cons "rgbFrame" (.arr (intQuad 504 0 504 667))
    (.cons "videoW" (.int 1008)
    (.cons "videoH" (.int 667)
    (.cons "orien" (.int 0) .nil))))))))
  (.cons "extra" (.str "keepme") .nil)

/-- The `info` object inside `demoVapcFields`. -/
def demoInfoFields : JsonFields :=
  .cons "f" (.int 50)
  (.cons "fps" (.float 255 0)
  (.cons "aFrame" (.arr (intQuad 0 0 504 667))
  (.cons "rgbFrame" (.arr (intQuad 504 0 504 667))
  (.cons "videoW" (.int 1008)
  (.cons "videoH" (.int 667)
  (.cons "orien" (.int 0) .nil))))))

/-- Witness for C6 on the concrete descriptor. -/
theorem C6_geometry_rewrite_witness :
    ∃ u info2, updated_vapc_json demoVapcFields = .ok u ∧
      u.get "info" = some (Json.obj info2) ∧
      info2.get "videoW" = some (Json.int 2016) ∧
      info2.get "videoH" = some (Json.int 1334) ∧
      info2.get "aFrame" = some rect_aFrame ∧
      info2.get "rgbFrame" = some rect_rgbFrame ∧
      (∀ k, k ≠ "videoW" → k ≠ "videoH" → k ≠ "aFrame" → k ≠ "rgbFrame" →
        info2.get k = demoInfoFields.get k) ∧
      (∀ k, k ≠ "info" → u.get k = demoVapcFields.get k) :=
  C6_geometry_rewrite demoVapcFields demoInfoFields rfl

/-! ## The final validation gates -/

def invalid_msg (path : String) : String :=
  "Final MP4 is invalid after vapc insert: " ++ path

def missing_vapc_msg (path : String) : String :=
  "Final MP4 missing top-level vapc after insert: " ++ path

def missing_moov_msg (path : String) : String :=
  "Final MP4 missing moov atom after insert: " ++ path

def unplayable_msg (path : String) : String :=
  "Final MP4 is not playable after vapc insert: " ++ path

/-- Embedding of the four validation gates at the tail of
`write_final_with_vapc` (src/vap_master.py lines 326-333), applied to
the candidate file contents; `probe_ok` is the external ffprobe oracle
consumed by `is_playable_mp4`. -/
def final_validate (data : List Nat) (probe_ok : Bool) (path : String) :
    Except String Unit :=
  if ¬ is_valid_mp4 (some data) then .error (invalid_msg path)
  else if ¬ has_top_level_vapc data then .error (missing_vapc_msg path)
  else if "moov" ∉ list_top_level_atoms data then .error (missing_moov_msg path)
  else if ¬ is_playable_mp4 (some data) probe_ok then .error (unplayable_msg path)
  else .ok ()

theorem append_ne_of_length_ne {a b : String} (p : String)
    (h : a.length ≠ b.length) : a ++ p ≠ b ++ p := by
  intro hcontra
  have := congrArg String.length hcontra
  simp only [String.length_append] at this
  omega

/-- C7: the final validation applies exactly the four gates in order —
structural validity, `vapc` presence, `moov` presence, probe-confirmed
playability — each failing with its own error (the four messages are
pairwise distinct); the `vapc` gate fires exactly when the file is
structurally valid (hence has `moov` and `mdat`) but carries no `vapc`
atom, whatever the probe would say. -/
theorem C7_final_validation_gates (data : List Nat) (probe_ok : Bool) (path : String) :
    (final_validate data probe_ok path = .ok () ↔
      (is_valid_mp4 (some data) = true ∧ has_top_level_vapc data = true ∧
       "moov" ∈ list_top_level_atoms data ∧ probe_ok = true)) ∧
    (final_validate data probe_ok path = .error (invalid_msg path) ↔
      is_valid_mp4 (some data) = false) ∧
    (final_validate data probe_ok path = .error (missing_vapc_msg path) ↔
      (is_valid_mp4 (some data) = true ∧ has_top_level_vapc data = false)) ∧
    (final_validate data probe_ok path = .error (missing_moov_msg path) ↔
      (is_valid_mp4 (some data) = true ∧ has_top_level_vapc data = true ∧
       "moov" ∉ list_top_level_atoms data)) ∧
    (final_validate data probe_ok path = .error (unplayable_msg path) ↔
      (is_valid_mp4 (some data) = true ∧ has_top_level_vapc data = true ∧
       "moov" ∈ list_top_level_atoms data ∧ probe_ok = false)) ∧
    List.Pairwise (· ≠ ·)
      [invalid_msg path, missing_vapc_msg path, missing_moov_msg path,
        unplayable_msg path] := by
  have hd12 : invalid_msg path ≠ missing_vapc_msg path :=
    append_ne_of_length_ne path (by decide)
  have hd13 : invalid_msg path ≠ missing_moov_msg path :=
    append_ne_of_length_ne path (by decide)
  have hd14 : invalid_msg path ≠ unplayable_msg path :=
    append_ne_of_length_ne path (by decide)
  have hd23 : missing_vapc_msg path ≠ missing_moov_msg path :=
    append_ne_of_length_ne path (by decide)
  have hd24 : missing_vapc_msg path ≠ unplayable_msg path :=
    append_ne_of_length_ne path (by decide)
  have hd34 : missing_moov_msg path ≠ unplayable_msg path :=
    append_ne_of_length_ne path (by decide)
  refine ⟨?_, ?_, ?_, ?_, ?_, ?_⟩
  · unfold final_validate
    split_ifs with h1 h2 h3 h4 <;>
      simp_all [is_playable_mp4, Bool.not_eq_true]
  · unfold final_validate
    split_ifs with h1 h2 h3 h4 <;>
      simp_all [is_playable_mp4, Bool.not_eq_true, hd12, hd13, hd14,
        Ne.symm hd12, Ne.symm hd13, Ne.symm hd14]
  · unfold final_validate
    split_ifs with h1 h2 h3 h4 <;>
      simp_all [is_playable_mp4, Bool.not_eq_true, hd12, hd23, hd24,
        Ne.symm hd12, Ne.symm hd23, Ne.symm hd24]
  · unfold final_validate
    split_ifs with h1 h2 h3 h4 <;>
      simp_all [is_playable_mp4, Bool.not_eq_true, hd13, hd23, hd34,
        Ne.symm hd13, Ne.symm hd23, Ne.symm hd34]
  · unfold final_validate
    split_ifs with h1 h2 h3 h4 <;>
      simp_all [is_playable_mp4, Bool.not_eq_true, hd14, hd24, hd34,
        Ne.symm hd14, Ne.symm hd24, Ne.symm hd34]
  · exact List.Pairwise.cons (by simp [hd12, hd13, hd14])
      (List.Pairwise.cons (by simp [hd23, hd24])
        (List.Pairwise.cons (by simp [hd34]) (List.Pairwise.cons (by simp) List.Pairwise.nil)))

/-! ## The encoder invocation and its fallback -/

/-- Exit status and captured output streams of an external process. -/
structure ProcResult where
  returncode : Int
  stdout : String
  stderr : String

/-- The arguments `run_vap_batch` receives (src/vap_master.py lines
366-376); paths are strings, joined with `/` as `pathlib` does. -/
structure VapBatchArgs where
  java : String
  vaptool_home : String
  animtool_jar : String
  skill_dir : String
  frames_dir : String
  vap_out_dir : String
  fps : Int
  bitrate : Int
  scale : String

/-- The `' '.join(cmd)` of the encoder command line (src/vap_master.py
lines 379-391). -/
def vapBatchCmd (a : VapBatchArgs) : String :=
  String.intercalate " " [a.java, "-cp", a.animtool_jar ++ ":" ++ a.skill_dir,
    "VapBatch", a.vaptool_home, a.frames_dir, a.vap_out_dir,
    toString a.fps, toString a.bitrate, a.scale]

/-- The `EncoderFailed` diagnostic (src/vap_master.py lines 408-413). -/
def vapBatchFailMsg (a : VapBatchArgs) (res : ProcResult) : String :=
  "run VapBatch failed with exit " ++ toString res.returncode ++
    "\ncmd: " ++ vapBatchCmd a ++
    "\nstdout:\n" ++ res.stdout ++
    "\nstderr:\n" ++ res.stderr

/-- Embedding of the result handling of `run_vap_batch`
(src/vap_master.py lines 393-414): on exit status 0 nothing more
happens; on failure the fixed fallback subdirectory
`frames_dir/output` is probed, and when both `video.mp4` and
`vapc.json` exist there they (plus `md5.txt` when present) are copied
into the encoder output directory and the run proceeds; otherwise the
run fails with the captured diagnostics.  The `.ok` payload lists the
copies performed as (source, destination) pairs. -/
def run_vap_batch (a : VapBatchArgs) (res : ProcResult)
    (fallback_video fallback_vapc fallback_md5 : Bool) :
    Except String (List (String × String)) :=
  if res.returncode = 0 then .ok []
  else if fallback_video && fallback_vapc then
    .ok ([(a.frames_dir ++ "/output/video.mp4", a.vap_out_dir ++ "/video.mp4"),
          (a.frames_dir ++ "/output/vapc.json", a.vap_out_dir ++ "/vapc.json")] ++
      (if fallback_md5 then
        [(a.frames_dir ++ "/output/md5.txt", a.vap_out_dir ++ "/md5.txt")] else []))
  else .error (vapBatchFailMsg a res)

/-- C8: when the encoder exits non-zero, the pipeline probes the fixed
fallback subdirectory of the normalized-frame directory: when both the
video and the descriptor are there they are copied to the expected
output location and no encoder-failure error is raised; when either is
missing the run fails with an error carrying the process's captured
stdout and stderr. -/
theorem C8_encoder_fallback (a : VapBatchArgs) (res : ProcResult)
    (fallback_video fallback_vapc fallback_md5 : Bool)
    (hfail : res.returncode ≠ 0) :
    (fallback_video = true → fallback_vapc = true →
      run_vap_batch a res fallback_video fallback_vapc fallback_md5 =
        .ok ([(a.frames_dir ++ "/output/video.mp4", a.vap_out_dir ++ "/video.mp4"),
              (a.frames_dir ++ "/output/vapc.json", a.vap_out_dir ++ "/vapc.json")] ++
          (if fallback_md5 then
            [(a.frames_dir ++ "/output/md5.txt", a.vap_out_dir ++ "/md5.txt")]
          else []))) ∧
    (fallback_video = false ∨ fallback_vapc = false →
      run_vap_batch a res fallback_video fallback_vapc fallback_md5 =
        .error (vapBatchFailMsg a res) ∧
      ∃ pre mid, vapBatchFailMsg a res = pre ++ res.stdout ++ mid ++ res.stderr) := by
  constructor
  · intro hv hc
    simp [run_vap_batch, hfail, hv, hc]
  · intro hmiss
    constructor
    · have hb : (fallback_video && fallback_vapc) = false := by
        rcases hmiss with h | h <;> simp [h]
      simp [run_vap_batch, hfail, hb]
    · refine ⟨"run VapBatch failed with exit " ++ toString res.returncode ++
        "\ncmd: " ++ vapBatchCmd a ++ "\nstdout:\n", "\nstderr:\n", ?_⟩
      simp [vapBatchFailMsg, String.append_assoc]

/-- Witness for C8: a failed encoder run with an empty fallback
directory. -/
theorem C8_encoder_fallback_witness :
    (false = true → true = true →
      run_vap_batch ⟨"java", "home", "animtool.jar", "skill", "frames", "out", 25, 2000, "0.5"⟩
        ⟨1, "captured out", "captured err"⟩ false true false =
        .ok ([("frames" ++ "/output/video.mp4", "out" ++ "/video.mp4"),
              ("frames" ++ "/output/vapc.json", "out" ++ "/vapc.json")] ++
          (if false then [("frames" ++ "/output/md5.txt", "out" ++ "/md5.txt")] else []))) ∧
    (false = false ∨ true = false →
      run_vap_batch ⟨"java", "home", "animtool.jar", "skill", "frames", "out", 25, 2000, "0.5"⟩
        ⟨1, "captured out", "captured err"⟩ false true false =
        .error (vapBatchFailMsg
          ⟨"java", "home", "animtool.jar", "skill", "frames", "out", 25, 2000, "0.5"⟩
          ⟨1, "captured out", "captured err"⟩) ∧
      ∃ pre mid, vapBatchFailMsg
          ⟨"java", "home", "animtool.jar", "skill", "frames", "out", 25, 2000, "0.5"⟩
          ⟨1, "captured out", "captured err"⟩ =
        pre ++ "captured out" ++ mid ++ "captured err") :=
  C8_encoder_fallback _ _ false true false (by decide)

end VapMaster

namespace VapMaster

/-! ## Serialization of JSON documents

`json.dumps(..., ensure_ascii=False, separators=(",", ":"))` and
`json.loads` are modelled at character granularity: a Python `str` is a
sequence of chars, and UTF-8 en/decoding (a bijection between the byte
payload and that char sequence) is left implicit.  The printer emits the
compact form the source requests; the parser reads exactly the grammar
the printer emits (JSON without insignificant whitespace). -/

theorem natChars_ne_nil (n : Nat) : natChars n ≠ [] := by
  unfold natChars
  split
  · simp
  · next h =>
    simp only [ne_eq, List.map_eq_nil_iff, List.reverse_eq_nil_iff]
    exact Nat.digits_ne_nil_iff_ne_zero.mpr h

theorem digitChar_toNat {d : Nat} (h : d < 10) : (Char.ofNat (48 + d)).toNat = 48 + d := by
  revert h
  revert d
  decide

theorem digitChar_isDigit {d : Nat} (h : d < 10) : (Char.ofNat (48 + d)).isDigit = true := by
  revert h
  revert d
  decide

theorem natChars_all_digit (n : Nat) : ∀ c ∈ natChars n, c.isDigit = true := by
  unfold natChars
  split
  · intro c hc
    simp at hc
    subst hc
    decide
  · intro c hc
    simp only [List.mem_map, List.mem_reverse] at hc
    obtain ⟨d, hd, rfl⟩ := hc
    exact digitChar_isDigit (Nat.digits_lt_base (by norm_num) hd)

theorem digitsVal_rev_digits (ds : List Nat) (hall : ∀ d ∈ ds, d < 10) :
    digitsVal (ds.reverse.map (fun d => Char.ofNat (48 + d))) = Nat.ofDigits 10 ds := by
  induction ds with
  | nil => simp [digitsVal]
  | cons d ds ih =>
    have hd : d < 10 := hall d (by simp)
    have hds : ∀ x ∈ ds, x < 10 := fun x hx => hall x (by simp [hx])
    simp only [List.reverse_cons, List.map_append, List.map_cons, List.map_nil]
    unfold digitsVal
    rw [List.foldl_append]
    have : digitsVal (ds.reverse.map (fun d => Char.ofNat (48 + d))) = Nat.ofDigits 10 ds :=
      ih hds
    unfold digitsVal at this
    rw [this]
    simp only [List.foldl_cons, List.foldl_nil, digitChar_toNat hd]
    rw [Nat.ofDigits_cons]
    omega

theorem digitsVal_natChars (n : Nat) : digitsVal (natChars n) = n := by
  unfold natChars
  split
  · next h => subst h; decide
  · rw [digitsVal_rev_digits _ (fun d hd => Nat.digits_lt_base (by norm_num) hd)]
    exact Nat.ofDigits_digits 10 n

theorem digitsVal_replicate_zero (k : Nat) (ds : List Char) :
    digitsVal (List.replicate k '0' ++ ds) = digitsVal ds := by
  induction k with
  | zero => simp
  | succ k ih =>
    unfold digitsVal at *
    simp only [List.replicate_succ, List.cons_append, List.foldl_cons]
    simpa using ih

/-- Zero-left-padded decimal digits of `n`, minimum width `w`. -/
def padDigits (n : Nat) (w : Nat) : List Char :=
  List.replicate (w - (natChars n).length) '0' ++ natChars n

theorem padDigits_all_digit (n w : Nat) : ∀ c ∈ padDigits n w, c.isDigit = true := by
  intro c hc
  rcases List.mem_append.mp hc with h | h
  · rw [List.eq_of_mem_replicate h]
    decide
  · exact natChars_all_digit n c h

theorem padDigits_length (n w : Nat) : w ≤ (padDigits n w).length := by
  unfold padDigits
  rw [List.length_append, List.length_replicate]
  omega

theorem digitsVal_padDigits (n w : Nat) : digitsVal (padDigits n w) = n := by
  unfold padDigits
  rw [digitsVal_replicate_zero, digitsVal_natChars]

theorem all_digit_head {l : List Char} (hne : l ≠ [])
    (hall : ∀ c ∈ l, c.isDigit = true) :
    ∃ c cs, l = c :: cs ∧ c.isDigit = true := by
  cases l with
  | nil => exact absurd rfl hne
  | cons c cs => exact ⟨c, cs, rfl, hall c (by simp)⟩

theorem takeWhile_append_stop {p : Char → Bool} : ∀ (xs ys : List Char),
    (∀ c ∈ xs, p c = true) → (∀ d ds, ys = d :: ds → p d = false) →
    (xs ++ ys).takeWhile p = xs ∧ (xs ++ ys).dropWhile p = ys := by
  intro xs
  induction xs with
  | nil =>
    intro ys _ hstop
    cases ys with
    | nil => simp
    | cons d ds =>
      have := hstop d ds rfl
      simp [List.takeWhile, List.dropWhile, this]
  | cons x xs ih =>
    intro ys hall hstop
    have hx : p x = true := hall x (by simp)
    have hxs : ∀ c ∈ xs, p c = true := fun c hc => hall c (by simp [hc])
    obtain ⟨h1, h2⟩ := ih ys hxs hstop
    simp [List.takeWhile, List.dropWhile, hx, h1, h2]

/-- Lowercase hex digit for `k < 16` (the `%04x` of `json.dumps`
control-character escapes). -/
def hexDigitChar (k : Nat) : Char :=
  Char.ofNat (if k < 10 then 48 + k else 87 + k)

/-- Hex digit value of a char, `none` for non-hex chars. -/
def hexVal (c : Char) : Option Nat :=
  if 48 ≤ c.toNat ∧ c.toNat ≤ 57 then some (c.toNat - 48)
  else if 97 ≤ c.toNat ∧ c.toNat ≤ 102 then some (c.toNat - 87)
  else if 65 ≤ c.toNat ∧ c.toNat ≤ 70 then some (c.toNat - 55)
  else none

theorem hexVal_hexDigitChar {k : Nat} (h : k < 16) : hexVal (hexDigitChar k) = some k := by
  revert h
  revert k
  decide

/-- How `json.dumps(..., ensure_ascii=False)` renders one character of a
string: `"` and `\` are escaped, control characters get their two-char
escape or a `\u00XX` escape, and everything else passes through. -/
def escapeChar (c : Char) : List Char :=
  if c = '"' then ['\\', '"']
  else if c = '\\' then ['\\', '\\']
  else if c.toNat < 32 then
    if c.toNat = 8 then ['\\', 'b']
    else if c.toNat = 9 then ['\\', 't']
    else if c.toNat = 10 then ['\\', 'n']
    else if c.toNat = 12 then ['\\', 'f']
    else if c.toNat = 13 then ['\\', 'r']
    else ['\\', 'u', '0', '0', hexDigitChar (c.toNat / 16), hexDigitChar (c.toNat % 16)]
  else [c]

/-- The rendering of a string minus its opening quote; the closing quote
is appended. -/
def printStr (s : String) : List Char :=
  '"' :: (s.data.map escapeChar).flatten ++ ['"']

/-- A `\uXXXX` escape body: four hex digits decoded to one character. -/
def parseHex4 : List Char → Option (Char × List Char)
  | h1 :: h2 :: h3 :: h4 :: r3 =>
    match hexVal h1, hexVal h2, hexVal h3, hexVal h4 with
    | some v1, some v2, some v3, some v4 =>
      some (Char.ofNat (((v1 * 16 + v2) * 16 + v3) * 16 + v4), r3)
    | _, _, _, _ => none
  | _ => none

theorem parseHex4_length : ∀ {r : List Char} {d : Char} {r2 : List Char},
    parseHex4 r = some (d, r2) → r2.length + 4 = r.length := by
  intro r d r2 h
  match r with
  | [] => exact absurd h (by simp [parseHex4])
  | [x1] => exact absurd h (by simp [parseHex4])
  | [x1, x2] => exact absurd h (by simp [parseHex4])
  | [x1, x2, x3] => exact absurd h (by simp [parseHex4])
  | x1 :: x2 :: x3 :: x4 :: r3 =>
    simp only [parseHex4] at h
    rcases hx1 : hexVal x1 with _ | v1 <;> rw [hx1] at h <;>
      rcases hx2 : hexVal x2 with _ | v2 <;> rw [hx2] at h <;>
      rcases hx3 : hexVal x3 with _ | v3 <;> rw [hx3] at h <;>
      rcases hx4 : hexVal x4 with _ | v4 <;> rw [hx4] at h <;>
      simp at h
    obtain ⟨-, hr⟩ := h
    subst hr
    simp

/-- `json.loads` on one escape sequence, from just after the backslash:
the decoded character and the remaining input. -/
def parseEscape : List Char → Option (Char × List Char)
  | [] => none
  | e :: r2 =>
    if e = '"' then some ('"', r2)
    else if e = '\\' then some ('\\', r2)
    else if e = '/' then some ('/', r2)
    else if e = 'b' then some (Char.ofNat 8, r2)
    else if e = 'f' then some (Char.ofNat 12, r2)
    else if e = 'n' then some (Char.ofNat 10, r2)
    else if e = 'r' then some (Char.ofNat 13, r2)
    else if e = 't' then some (Char.ofNat 9, r2)
    else if e = 'u' then parseHex4 r2
    else none

theorem parseEscape_length : ∀ {r : List Char} {d : Char} {r2 : List Char},
    parseEscape r = some (d, r2) → r2.length < r.length := by
  intro r d r2 h
  match r with
  | [] => exact absurd h (by simp [parseEscape])
  | e :: r' =>
    simp only [parseEscape] at h
    split_ifs at h with h1 h2 h3 h4 h5 h6 h7 h8 h9 <;>
    first
      | (injection h with h'; injection h' with _ hr; subst hr; simp)
      | (have hp4 := parseHex4_length h; simp only [List.length_cons]; omega)
      | exact absurd h (by simp)

/-- `json.loads` on a string body, from just after the opening quote:
decode characters and escapes until the closing quote, returning the
decoded chars and the remaining input. -/
def parseStringRest (s : List Char) : Option (List Char × List Char) :=
  match s with
  | [] => none
  | c :: r =>
    if c = '"' then some ([], r)
    else if c = '\\' then
      match hE : parseEscape r with
      | none => none
      | some (d, r2) => (parseStringRest r2).map fun p => (d :: p.1, p.2)
    else (parseStringRest r).map fun p => (c :: p.1, p.2)
termination_by s.length
decreasing_by
  · have := parseEscape_length hE
    simp only [List.length_cons]
    omega
  · simp

theorem parseStringRest_quote (r : List Char) :
    parseStringRest ('"' :: r) = some ([], r) := by
  rw [parseStringRest]
  rw [if_pos rfl]

theorem parseStringRest_backslash {r : List Char} {d : Char} {r2 : List Char}
    (hE : parseEscape r = some (d, r2)) :
    parseStringRest ('\\' :: r) = (parseStringRest r2).map fun p => (d :: p.1, p.2) := by
  rw [parseStringRest]
  rw [if_neg (by decide), if_pos rfl]
  split
  · next heq => rw [heq] at hE; cases hE
  · next d' r2' heq =>
    rw [heq] at hE
    injection hE with h'
    injection h' with hd hr
    rw [hd, hr]

theorem parseStringRest_plain {c : Char} (h1 : ¬ c = '"') (h2 : ¬ c = '\\')
    (r : List Char) :
    parseStringRest (c :: r) = (parseStringRest r).map fun p => (c :: p.1, p.2) := by
  rw [parseStringRest]
  rw [if_neg h1, if_neg h2]

/-- One printed character always parses back to itself. -/
theorem parseStringRest_escape_step (c : Char) (t : List Char) :
    parseStringRest (escapeChar c ++ t) = (parseStringRest t).map fun p => (c :: p.1, p.2) := by
  unfold escapeChar
  split_ifs with h1 h2 h3 h4 h5 h6 h7 h8
  · subst h1
    rw [show (['\\', '"'] : List Char) ++ t = '\\' :: ('"' :: t) from rfl]
    exact parseStringRest_backslash (by simp [parseEscape])
  · subst h2
    rw [show (['\\', '\\'] : List Char) ++ t = '\\' :: ('\\' :: t) from rfl]
    exact parseStringRest_backslash (by simp [parseEscape])
  · have hc : Char.ofNat 8 = c := by rw [← h4, Char.ofNat_toNat]
    rw [show (['\\', 'b'] : List Char) ++ t = '\\' :: ('b' :: t) from rfl]
    rw [@parseStringRest_backslash ('b' :: t) (Char.ofNat 8) t (by simp [parseEscape])]
    rw [hc]
  · have hc : Char.ofNat 9 = c := by rw [← h5, Char.ofNat_toNat]
    rw [show (['\\', 't'] : List Char) ++ t = '\\' :: ('t' :: t) from rfl]
    rw [@parseStringRest_backslash ('t' :: t) (Char.ofNat 9) t (by simp [parseEscape])]
    rw [hc]
  · have hc : Char.ofNat 10 = c := by rw [← h6, Char.ofNat_toNat]
    rw [show (['\\', 'n'] : List Char) ++ t = '\\' :: ('n' :: t) from rfl]
    rw [@parseStringRest_backslash ('n' :: t) (Char.ofNat 10) t (by simp [parseEscape])]
    rw [hc]
  · have hc : Char.ofNat 12 = c := by rw [← h7, Char.ofNat_toNat]
    rw [show (['\\', 'f'] : List Char) ++ t = '\\' :: ('f' :: t) from rfl]
    rw [@parseStringRest_backslash ('f' :: t) (Char.ofNat 12) t (by simp [parseEscape])]
    rw [hc]
  · have hc : Char.ofNat 13 = c := by rw [← h8, Char.ofNat_toNat]
    rw [show (['\\', 'r'] : List Char) ++ t = '\\' :: ('r' :: t) from rfl]
    rw [@parseStringRest_backslash ('r' :: t) (Char.ofNat 13) t (by simp [parseEscape])]
    rw [hc]
  · -- the \u00XX escape of the remaining control characters
    have hdiv : c.toNat / 16 < 16 := by omega
    have hmod : c.toNat % 16 < 16 := by omega
    have hH : parseHex4
        ('0' :: '0' :: hexDigitChar (c.toNat / 16) :: hexDigitChar (c.toNat % 16) :: t) =
        some (c, t) := by
      simp only [parseHex4]
      rw [show hexVal '0' = some 0 from by decide,
        hexVal_hexDigitChar hdiv, hexVal_hexDigitChar hmod]
      show some (Char.ofNat (((0 * 16 + 0) * 16 + c.toNat / 16) * 16 + c.toNat % 16), t) =
        some (c, t)
      have hval : ((0 * 16 + 0) * 16 + c.toNat / 16) * 16 + c.toNat % 16 = c.toNat := by
        omega
      rw [hval, Char.ofNat_toNat]
    rw [show (['\\', 'u', '0', '0', hexDigitChar (c.toNat / 16),
        hexDigitChar (c.toNat % 16)] : List Char) ++ t =
      '\\' :: ('u' :: '0' :: '0' :: hexDigitChar (c.toNat / 16) ::
        hexDigitChar (c.toNat % 16) :: t) from rfl]
    rw [@parseStringRest_backslash ('u' :: '0' :: '0' :: hexDigitChar (c.toNat / 16) ::
      hexDigitChar (c.toNat % 16) :: t) c t (by
      simp only [parseEscape]
      simp only [show ('u' = '"') = False from by simp, show ('u' = '\\') = False from by simp,
        show ('u' = '/') = False from by simp, show ('u' = 'b') = False from by simp,
        show ('u' = 'f') = False from by simp, show ('u' = 'n') = False from by simp,
        show ('u' = 'r') = False from by simp, show ('u' = 't') = False from by simp,
        if_false, if_pos]
      exact hH)]
  · rw [show ([c] : List Char) ++ t = c :: t from rfl]
    exact parseStringRest_plain h1 h2 t

theorem parseStringRest_roundtrip (cs : List Char) (rest : List Char) :
    parseStringRest ((cs.map escapeChar).flatten ++ '"' :: rest) = some (cs, rest) := by
  induction cs with
  | nil =>
    rw [List.map_nil, List.flatten_nil, List.nil_append, parseStringRest_quote]
  | cons c cs ih =>
    rw [List.map_cons, List.flatten_cons, List.append_assoc,
      parseStringRest_escape_step, ih]
    rfl

/-- `str(i)` for a Python int. -/
def printInt (i : Int) : List Char :=
  if i < 0 then '-' :: natChars i.natAbs else natChars i.natAbs

/-- `repr` of the model float `m / 10 ^ (e + 1)`: its digits with `e + 1`
of them after the decimal point, with sign. -/
def printFloat (m : Int) (e : Nat) : List Char :=
  (if m < 0 then ['-'] else []) ++
    ((padDigits m.natAbs (e + 2)).take ((padDigits m.natAbs (e + 2)).length - (e + 1)) ++
      '.' :: (padDigits m.natAbs (e + 2)).drop ((padDigits m.natAbs (e + 2)).length - (e + 1)))

/-- The signed value of a digit run. -/
def intOfDigits (neg : Bool) (ds : List Char) : Int :=
  if neg then -(digitsVal ds : Int) else (digitsVal ds : Int)

/-- `json.loads` on a number after the optional minus sign: an integer
digit run, optionally followed by `.` and a fraction digit run. -/
def parseNumberNat (s : List Char) (neg : Bool) : Option (Json × List Char) :=
  if s.takeWhile Char.isDigit = [] then none
  else
    match s.dropWhile Char.isDigit with
    | [] => some (.int (intOfDigits neg (s.takeWhile Char.isDigit)), [])
    | c2 :: s3 =>
      if c2 = '.' then
        if s3.takeWhile Char.isDigit = [] then none
        else some (.float
            (intOfDigits neg (s.takeWhile Char.isDigit ++ s3.takeWhile Char.isDigit))
            ((s3.takeWhile Char.isDigit).length - 1),
          s3.dropWhile Char.isDigit)
      else some (.int (intOfDigits neg (s.takeWhile Char.isDigit)), c2 :: s3)

/-- `json.loads` on a number: optional minus sign, then the digit runs. -/
def parseNumber (s : List Char) : Option (Json × List Char) :=
  match s with
  | [] => none
  | c :: r => if c = '-' then parseNumberNat r true else parseNumberNat (c :: r) false

/-- The characters that may legally follow a printed number in this
grammar: end of input, or a non-digit that is not a decimal point. -/
def numStop : List Char → Prop
  | [] => True
  | c :: _ => c.isDigit = false ∧ c ≠ '.'

theorem numStop_stopfn {rest : List Char} (hstop : numStop rest) :
    ∀ d ds', rest = d :: ds' → Char.isDigit d = false := by
  intro d ds' hr
  rw [hr] at hstop
  exact hstop.1

theorem parseNumberNat_int (ds rest : List Char) (neg : Bool)
    (hne : ds ≠ []) (hall : ∀ c ∈ ds, c.isDigit = true) (hstop : numStop rest) :
    parseNumberNat (ds ++ rest) neg = some (.int (intOfDigits neg ds), rest) := by
  obtain ⟨htake, hdrop⟩ := takeWhile_append_stop ds rest hall (numStop_stopfn hstop)
  unfold parseNumberNat
  rw [htake, hdrop, if_neg hne]
  cases rest with
  | nil => rfl
  | cons c2 s3 =>
    have h2 : ¬ c2 = '.' := hstop.2
    simp [h2]

theorem parseNumberNat_float_parts (A B rest : List Char) (neg : Bool)
    (hA : A ≠ []) (hB : B ≠ []) (hallA : ∀ c ∈ A, c.isDigit = true)
    (hallB : ∀ c ∈ B, c.isDigit = true) (hstop : numStop rest) :
    parseNumberNat (A ++ '.' :: (B ++ rest)) neg =
      some (.float (intOfDigits neg (A ++ B)) (B.length - 1), rest) := by
  obtain ⟨htakeA, hdropA⟩ := takeWhile_append_stop A ('.' :: (B ++ rest)) hallA
    (by intro d ds' h; injection h with h1 _; rw [← h1]; decide)
  obtain ⟨htakeB, hdropB⟩ := takeWhile_append_stop B rest hallB (numStop_stopfn hstop)
  unfold parseNumberNat
  rw [htakeA, hdropA, if_neg hA]
  simp [htakeB, hdropB, hB]

theorem intOfDigits_natChars_true (n : Nat) :
    intOfDigits true (natChars n) = -(n : Int) := by
  unfold intOfDigits
  rw [if_pos rfl, digitsVal_natChars]

theorem intOfDigits_natChars_false (n : Nat) :
    intOfDigits false (natChars n) = (n : Int) := by
  unfold intOfDigits
  rw [if_neg (by simp), digitsVal_natChars]

theorem isDigit_ne_minus {c : Char} (h : c.isDigit = true) : ¬ c = '-' := by
  intro heq
  rw [heq] at h
  exact absurd h (by decide)

theorem parseNumber_printInt (i : Int) (rest : List Char) (hstop : numStop rest) :
    parseNumber (printInt i ++ rest) = some (.int i, rest) := by
  unfold printInt
  split_ifs with hneg
  · rw [show ('-' :: natChars i.natAbs) ++ rest = '-' :: (natChars i.natAbs ++ rest) from
      rfl]
    simp only [parseNumber]
    rw [if_pos trivial,
      parseNumberNat_int _ _ _ (natChars_ne_nil _) (natChars_all_digit _) hstop,
      intOfDigits_natChars_true]
    have h2 : -(i.natAbs : Int) = i := by omega
    rw [h2]
  · obtain ⟨c, cs, heq, hdig⟩ :=
      all_digit_head (natChars_ne_nil i.natAbs) (natChars_all_digit i.natAbs)
    rw [heq, show (c :: cs) ++ rest = c :: (cs ++ rest) from rfl]
    simp only [parseNumber]
    rw [if_neg (isDigit_ne_minus hdig),
      show c :: (cs ++ rest) = (c :: cs) ++ rest from rfl, ← heq,
      parseNumberNat_int _ _ _ (natChars_ne_nil _) (natChars_all_digit _) hstop,
      intOfDigits_natChars_false]
    have h2 : (i.natAbs : Int) = i := by omega
    rw [h2]

theorem parseNumber_printFloat (m : Int) (e : Nat) (rest : List Char)
    (hstop : numStop rest) :
    parseNumber (printFloat m e ++ rest) = some (.float m e, rest) := by
  have hlen := padDigits_length m.natAbs (e + 2)
  have hAB : (padDigits m.natAbs (e + 2)).take
        ((padDigits m.natAbs (e + 2)).length - (e + 1)) ++
      (padDigits m.natAbs (e + 2)).drop
        ((padDigits m.natAbs (e + 2)).length - (e + 1)) =
      padDigits m.natAbs (e + 2) := List.take_append_drop _ _
  have hlenA : ((padDigits m.natAbs (e + 2)).take
      ((padDigits m.natAbs (e + 2)).length - (e + 1))).length =
      (padDigits m.natAbs (e + 2)).length - (e + 1) := by
    rw [List.length_take]
    omega
  have hlenB : ((padDigits m.natAbs (e + 2)).drop
      ((padDigits m.natAbs (e + 2)).length - (e + 1))).length = e + 1 := by
    rw [List.length_drop]
    omega
  have hAne : (padDigits m.natAbs (e + 2)).take
      ((padDigits m.natAbs (e + 2)).length - (e + 1)) ≠ [] := by
    intro hnil
    rw [hnil] at hlenA
    simp at hlenA
    omega
  have hBne : (padDigits m.natAbs (e + 2)).drop
      ((padDigits m.natAbs (e + 2)).length - (e + 1)) ≠ [] := by
    intro hnil
    rw [hnil] at hlenB
    simp at hlenB
  have hallA : ∀ c ∈ (padDigits m.natAbs (e + 2)).take
      ((padDigits m.natAbs (e + 2)).length - (e + 1)), c.isDigit = true :=
    fun c hc => padDigits_all_digit _ _ c (List.take_subset _ _ hc)
  have hallB : ∀ c ∈ (padDigits m.natAbs (e + 2)).drop
      ((padDigits m.natAbs (e + 2)).length - (e + 1)), c.isDigit = true :=
    fun c hc => padDigits_all_digit _ _ c (List.drop_subset _ _ hc)
  unfold printFloat
  split_ifs with hneg
  · have hval : intOfDigits true (padDigits m.natAbs (e + 2)) = m := by
      unfold intOfDigits
      rw [if_pos rfl, digitsVal_padDigits]
      omega
    rw [show (['-'] : List Char) ++ ((padDigits m.natAbs (e + 2)).take
          ((padDigits m.natAbs (e + 2)).length - (e + 1)) ++
        '.' :: (padDigits m.natAbs (e + 2)).drop
          ((padDigits m.natAbs (e + 2)).length - (e + 1))) ++ rest =
      '-' :: ((padDigits m.natAbs (e + 2)).take
          ((padDigits m.natAbs (e + 2)).length - (e + 1)) ++
        '.' :: ((padDigits m.natAbs (e + 2)).drop
          ((padDigits m.natAbs (e + 2)).length - (e + 1)) ++ rest)) from by
      simp]
    simp only [parseNumber]
    rw [if_pos trivial,
      parseNumberNat_float_parts _ _ _ _ hAne hBne hallA hallB hstop, hAB, hlenB,
      hval]
    simp
  · have hval : intOfDigits false (padDigits m.natAbs (e + 2)) = m := by
      unfold intOfDigits
      rw [if_neg (by simp), digitsVal_padDigits]
      omega
    rw [show ([] : List Char) ++ ((padDigits m.natAbs (e + 2)).take
          ((padDigits m.natAbs (e + 2)).length - (e + 1)) ++
        '.' :: (padDigits m.natAbs (e + 2)).drop
          ((padDigits m.natAbs (e + 2)).length - (e + 1))) ++ rest =
      ((padDigits m.natAbs (e + 2)).take
          ((padDigits m.natAbs (e + 2)).length - (e + 1)) ++
        '.' :: ((padDigits m.natAbs (e + 2)).drop
          ((padDigits m.natAbs (e + 2)).length - (e + 1)) ++ rest)) from by
      simp]
    obtain ⟨c, cs, heq, hdig⟩ := all_digit_head hAne hallA
    rw [heq, show (c :: cs) ++ '.' :: ((padDigits m.natAbs (e + 2)).drop
          ((padDigits m.natAbs (e + 2)).length - (e + 1)) ++ rest) =
        c :: (cs ++ '.' :: ((padDigits m.natAbs (e + 2)).drop
          ((padDigits m.natAbs (e + 2)).length - (e + 1)) ++ rest)) from rfl]
    simp only [parseNumber]
    rw [if_neg (isDigit_ne_minus hdig),
      show c :: (cs ++ '.' :: ((padDigits m.natAbs (e + 2)).drop
          ((padDigits m.natAbs (e + 2)).length - (e + 1)) ++ rest)) =
        (c :: cs) ++ '.' :: ((padDigits m.natAbs (e + 2)).drop
          ((padDigits m.natAbs (e + 2)).length - (e + 1)) ++ rest) from rfl,
      ← heq,
      parseNumberNat_float_parts _ _ _ _ hAne hBne hallA hallB hstop, hAB, hlenB,
      hval]
    simp

/- Printing: the compact rendering of `json.dumps(..., ensure_ascii=False,
separators=(",", ":"))`, with no inserted whitespace. -/
mutual
def printJson : Json → List Char
  | .null => 'n' :: ['u', 'l', 'l']
  | .bool true => 't' :: ['r', 'u', 'e']
  | .bool false => 'f' :: ['a', 'l', 's', 'e']
  | .int i => printInt i
  | .float m e => printFloat m e
  | .str s => printStr s
  | .arr xs => '[' :: (printElems xs ++ [']'])
  | .obj fs => Char.ofNat 123 :: (printFields fs ++ [Char.ofNat 125])

def printElems : JsonList → List Char
  | .nil => []
  | .cons x .nil => printJson x
  | .cons x (.cons y tl) => printJson x ++ ',' :: printElems (.cons y tl)

def printFields : JsonFields → List Char
  | .nil => []
  | .cons k v .nil => printStr k ++ ':' :: printJson v
  | .cons k v (.cons k2 v2 tl) =>
    printStr k ++ ':' :: (printJson v ++ ',' :: printFields (.cons k2 v2 tl))
end

/- Parsing: `json.loads` on the compact documents the printer emits, with
a recursion budget consumed one unit per nesting step. -/
mutual
def parseValue : Nat → List Char → Option (Json × List Char)
  | 0, _ => none
  | fuel + 1, s =>
    match s with
    | [] => none
    | c :: r =>
      if c = 'n' then
        match r with
        | 'u' :: 'l' :: 'l' :: r2 => some (.null, r2)
        | _ => none
      else if c = 't' then
        match r with
        | 'r' :: 'u' :: 'e' :: r2 => some (.bool true, r2)
        | _ => none
      else if c = 'f' then
        match r with
        | 'a' :: 'l' :: 's' :: 'e' :: r2 => some (.bool false, r2)
        | _ => none
      else if c = '"' then
        (parseStringRest r).map fun p => (.str (String.mk p.1), p.2)
      else if c = '[' then
        (parseElems fuel r).map fun p => (.arr p.1, p.2)
      else if c = Char.ofNat 123 then
        (parseFields fuel r).map fun p => (.obj p.1, p.2)
      else
        parseNumber (c :: r)

def parseElems : Nat → List Char → Option (JsonList × List Char)
  | 0, _ => none
  | fuel + 1, s =>
    match s with
    | [] => none
    | c :: r =>
      if c = ']' then some (.nil, r)
      else
        match parseValue fuel (c :: r) with
        | none => none
        | some (v, r1) =>
          match r1 with
          | [] => none
          | c2 :: r2 =>
            if c2 = ',' then (parseElems fuel r2).map fun p => (.cons v p.1, p.2)
            else if c2 = ']' then some (.cons v .nil, r2)
            else none

def parseFields : Nat → List Char → Option (JsonFields × List Char)
  | 0, _ => none
  | fuel + 1, s =>
    match s with
    | [] => none
    | c :: r =>
      if c = Char.ofNat 125 then some (.nil, r)
      else if c = '"' then
        match parseStringRest r with
        | none => none
        | some (k, r1) =>
          match r1 with
          | [] => none
          | c2 :: r2 =>
            if c2 = ':' then
              match parseValue fuel r2 with
              | none => none
              | some (v, r3) =>
                match r3 with
                | [] => none
                | c3 :: r4 =>
                  if c3 = ',' then
                    (parseFields fuel r4).map fun p => (.cons (String.mk k) v p.1, p.2)
                  else if c3 = Char.ofNat 125 then some (.cons (String.mk k) v .nil, r4)
                  else none
            else none
      else none
end

/- Budget: the recursion fuel a document needs to be parsed back. -/
mutual
def reqFuelV : Json → Nat
  | .null => 1
  | .bool _ => 1
  | .int _ => 1
  | .float _ _ => 1
  | .str _ => 1
  | .arr xs => reqFuelL xs + 1
  | .obj fs => reqFuelF fs + 1

def reqFuelL : JsonList → Nat
  | .nil => 1
  | .cons x tl => max (reqFuelV x) (reqFuelL tl) + 1

def reqFuelF : JsonFields → Nat
  | .nil => 1
  | .cons _ v tl => max (reqFuelV v) (reqFuelF tl) + 1
end

theorem reqFuelV_pos (j : Json) : 1 ≤ reqFuelV j := by
  cases j <;> simp [reqFuelV]

theorem printInt_head (i : Int) :
    ∃ c cs, printInt i = c :: cs ∧ (c = '-' ∨ c.isDigit = true) := by
  unfold printInt
  split_ifs with h
  · exact ⟨'-', _, rfl, Or.inl rfl⟩
  · obtain ⟨c, cs, heq, hdig⟩ :=
      all_digit_head (natChars_ne_nil i.natAbs) (natChars_all_digit i.natAbs)
    exact ⟨c, cs, heq, Or.inr hdig⟩

theorem printFloat_head (m : Int) (e : Nat) :
    ∃ c cs, printFloat m e = c :: cs ∧ (c = '-' ∨ c.isDigit = true) := by
  have hlen := padDigits_length m.natAbs (e + 2)
  have hAne : (padDigits m.natAbs (e + 2)).take
      ((padDigits m.natAbs (e + 2)).length - (e + 1)) ≠ [] := by
    intro hnil
    have := congrArg List.length hnil
    rw [List.length_take] at this
    simp at this
    omega
  have hallA : ∀ c ∈ (padDigits m.natAbs (e + 2)).take
      ((padDigits m.natAbs (e + 2)).length - (e + 1)), c.isDigit = true :=
    fun c hc => padDigits_all_digit _ _ c (List.take_subset _ _ hc)
  obtain ⟨c, cs, heq, hdig⟩ := all_digit_head hAne hallA
  unfold printFloat
  split_ifs with h
  · exact ⟨'-', _, rfl, Or.inl rfl⟩
  · rw [List.nil_append, heq]
    exact ⟨c, _, rfl, Or.inr hdig⟩

theorem isDigit_ne_keyword {c : Char} (h : c.isDigit = true) :
    ¬ c = 'n' ∧ ¬ c = 't' ∧ ¬ c = 'f' ∧ ¬ c = '"' ∧ ¬ c = '[' ∧
    ¬ c = Char.ofNat 123 ∧ ¬ c = ']' := by
  refine ⟨?_, ?_, ?_, ?_, ?_, ?_, ?_⟩ <;>
    (intro heq; rw [heq] at h; exact absurd h (by decide))

theorem printJson_head_ne_rbracket (j : Json) :
    ∃ c cs, printJson j = c :: cs ∧ ¬ c = ']' := by
  cases j with
  | null => exact ⟨'n', ['u', 'l', 'l'], by simp [printJson], by decide⟩
  | bool b =>
    cases b
    · exact ⟨'f', ['a', 'l', 's', 'e'], by simp [printJson], by decide⟩
    · exact ⟨'t', ['r', 'u', 'e'], by simp [printJson], by decide⟩
  | int i =>
    obtain ⟨c, cs, heq, hc⟩ := printInt_head i
    refine ⟨c, cs, by simp [printJson, heq], ?_⟩
    rcases hc with rfl | hdig
    · decide
    · exact (isDigit_ne_keyword hdig).2.2.2.2.2.2
  | float m e =>
    obtain ⟨c, cs, heq, hc⟩ := printFloat_head m e
    refine ⟨c, cs, by simp [printJson, heq], ?_⟩
    rcases hc with rfl | hdig
    · decide
    · exact (isDigit_ne_keyword hdig).2.2.2.2.2.2
  | str s =>
    exact ⟨'"', (s.data.map escapeChar).flatten ++ ['"'],
      by simp [printJson, printStr], by decide⟩
  | arr xs => exact ⟨'[', printElems xs ++ [']'], by simp [printJson], by decide⟩
  | obj fs =>
    exact ⟨Char.ofNat 123, printFields fs ++ [Char.ofNat 125],
      by simp [printJson], by decide⟩

mutual
theorem reqFuelV_le : ∀ j : Json, reqFuelV j ≤ (printJson j).length + 1
  | .null => by simp [reqFuelV]
  | .bool b => by simp [reqFuelV]
  | .int i => by simp [reqFuelV]
  | .float m e => by simp [reqFuelV]
  | .str s => by simp [reqFuelV]
  | .arr xs => by
    have := reqFuelL_le xs
    simp only [reqFuelV, printJson, List.length_cons, List.length_append,
      List.length_singleton]
    omega
  | .obj fs => by
    have := reqFuelF_le fs
    simp only [reqFuelV, printJson, List.length_cons, List.length_append,
      List.length_singleton]
    omega

theorem reqFuelL_le : ∀ xs : JsonList, reqFuelL xs ≤ (printElems xs).length + 2
  | .nil => by simp [reqFuelL]
  | .cons x .nil => by
    have := reqFuelV_le x
    simp only [reqFuelL, reqFuelV, printElems]
    omega
  | .cons x (.cons y tl) => by
    have h1 := reqFuelV_le x
    have h2 := reqFuelL_le (.cons y tl)
    simp only [reqFuelL] at h2 ⊢
    simp only [printElems, List.length_append, List.length_cons]
    omega

theorem reqFuelF_le : ∀ fs : JsonFields, reqFuelF fs ≤ (printFields fs).length + 2
  | .nil => by simp [reqFuelF]
  | .cons k v .nil => by
    have := reqFuelV_le v
    simp only [reqFuelF, printFields, List.length_append, List.length_cons]
    omega
  | .cons k v (.cons k2 v2 tl) => by
    have h1 := reqFuelV_le v
    have h2 := reqFuelF_le (.cons k2 v2 tl)
    simp only [reqFuelF] at h2 ⊢
    simp only [printFields, List.length_append, List.length_cons]
    omega
end

theorem numStop_comma (r : List Char) : numStop (',' :: r) := ⟨by decide, by decide⟩

theorem numStop_rbracket (r : List Char) : numStop (']' :: r) := ⟨by decide, by decide⟩

theorem numStop_rbrace (r : List Char) : numStop (Char.ofNat 125 :: r) :=
  ⟨by decide, by decide⟩

theorem string_mk_data (s : String) : String.mk s.data = s := rfl

/- One step of parseFields on a quoted key: given the string scanner result
for the key and the value parser result for the tail, the field parser
reduces to the separator dispatch on the character after the value. -/
theorem parseFields_cons_step (fuel : Nat) (s k r2 r4 : List Char)
    (v : Json) (c3 : Char)
    (h1 : parseStringRest s = some (k, ':' :: r2))
    (h2 : parseValue fuel r2 = some (v, c3 :: r4)) :
    parseFields (fuel + 1) ('"' :: s) =
      (if c3 = ',' then
        (parseFields fuel r4).map fun p =>
          (JsonFields.cons (String.mk k) v p.1, p.2)
      else if c3 = Char.ofNat 125 then
        some (JsonFields.cons (String.mk k) v .nil, r4)
      else none) := by
  simp only [parseFields]
  rw [if_neg (by decide)]
  simp only [h1, h2]
  rw [if_pos trivial, if_pos trivial]


mutual
theorem parseValue_print : ∀ (j : Json) (fuel : Nat) (rest : List Char),
    reqFuelV j ≤ fuel → numStop rest →
    parseValue fuel (printJson j ++ rest) = some (j, rest)
  | .null, fuel, rest, hf, hs => by
    cases fuel with
    | zero => exact absurd hf (by simp [reqFuelV])
    | succ fuel =>
      simp only [printJson]
      simp [parseValue]
  | .bool true, fuel, rest, hf, hs => by
    cases fuel with
    | zero => exact absurd hf (by simp [reqFuelV])
    | succ fuel =>
      simp only [printJson]
      simp [parseValue]
  | .bool false, fuel, rest, hf, hs => by
    cases fuel with
    | zero => exact absurd hf (by simp [reqFuelV])
    | succ fuel =>
      simp only [printJson]
      simp [parseValue]
  | .int i, fuel, rest, hf, hs => by
    cases fuel with
    | zero => exact absurd hf (by simp [reqFuelV])
    | succ fuel =>
      simp only [printJson]
      obtain ⟨c, cs, heq, hc⟩ := printInt_head i
      rw [heq, show (c :: cs) ++ rest = c :: (cs ++ rest) from rfl]
      simp only [parseValue]
      have hnm : ¬ c = 'n' ∧ ¬ c = 't' ∧ ¬ c = 'f' ∧ ¬ c = '"' ∧ ¬ c = '[' ∧
          ¬ c = Char.ofNat 123 := by
        rcases hc with rfl | hdig
        · exact ⟨by decide, by decide, by decide, by decide, by decide, by decide⟩
        · obtain ⟨h1, h2, h3, h4, h5, h6, -⟩ := isDigit_ne_keyword hdig
          exact ⟨h1, h2, h3, h4, h5, h6⟩
      rw [if_neg hnm.1, if_neg hnm.2.1, if_neg hnm.2.2.1, if_neg hnm.2.2.2.1,
        if_neg hnm.2.2.2.2.1, if_neg hnm.2.2.2.2.2]
      rw [show c :: (cs ++ rest) = (c :: cs) ++ rest from rfl, ← heq]
      exact parseNumber_printInt i rest hs
  | .float m e, fuel, rest, hf, hs => by
    cases fuel with
    | zero => exact absurd hf (by simp [reqFuelV])
    | succ fuel =>
      simp only [printJson]
      obtain ⟨c, cs, heq, hc⟩ := printFloat_head m e
      rw [heq, show (c :: cs) ++ rest = c :: (cs ++ rest) from rfl]
      simp only [parseValue]
      have hnm : ¬ c = 'n' ∧ ¬ c = 't' ∧ ¬ c = 'f' ∧ ¬ c = '"' ∧ ¬ c = '[' ∧
          ¬ c = Char.ofNat 123 := by
        rcases hc with rfl | hdig
        · exact ⟨by decide, by decide, by decide, by decide, by decide, by decide⟩
        · obtain ⟨h1, h2, h3, h4, h5, h6, -⟩ := isDigit_ne_keyword hdig
          exact ⟨h1, h2, h3, h4, h5, h6⟩
      rw [if_neg hnm.1, if_neg hnm.2.1, if_neg hnm.2.2.1, if_neg hnm.2.2.2.1,
        if_neg hnm.2.2.2.2.1, if_neg hnm.2.2.2.2.2]
      rw [show c :: (cs ++ rest) = (c :: cs) ++ rest from rfl, ← heq]
      exact parseNumber_printFloat m e rest hs
  | .str s, fuel, rest, hf, hs => by
    cases fuel with
    | zero => exact absurd hf (by simp [reqFuelV])
    | succ fuel =>
      simp only [printJson, printStr]
      simp only [List.cons_append, List.append_assoc, List.singleton_append,
        List.nil_append]
      simp only [parseValue]
      rw [if_neg (by decide), if_neg (by decide), if_neg (by decide)]
      rw [parseStringRest_roundtrip s.data rest]
      simp [string_mk_data]
  | .arr xs, fuel, rest, hf, hs => by
    cases fuel with
    | zero => exact absurd hf (by simp [reqFuelV])
    | succ fuel =>
      have hfl : reqFuelL xs ≤ fuel := by
        simp only [reqFuelV] at hf
        omega
      simp only [printJson]
      simp only [List.cons_append, List.append_assoc, List.singleton_append,
        List.nil_append]
      simp only [parseValue]
      rw [if_neg (by decide), if_neg (by decide), if_neg (by decide), if_neg (by decide)]
      rw [parseElems_print xs fuel rest hfl]
      rfl
  | .obj fs, fuel, rest, hf, hs => by
    cases fuel with
    | zero => exact absurd hf (by simp [reqFuelV])
    | succ fuel =>
      have hff : reqFuelF fs ≤ fuel := by
        simp only [reqFuelV] at hf
        omega
      simp only [printJson]
      simp only [List.cons_append, List.append_assoc, List.singleton_append,
        List.nil_append]
      simp only [parseValue]
      rw [if_neg (by decide), if_neg (by decide), if_neg (by decide), if_neg (by decide),
        if_neg (by decide)]
      rw [parseFields_print fs fuel rest hff]
      rfl

theorem parseElems_print : ∀ (xs : JsonList) (fuel : Nat) (rest : List Char),
    reqFuelL xs ≤ fuel →
    parseElems fuel (printElems xs ++ ']' :: rest) = some (xs, rest)
  | .nil, fuel, rest, hf => by
    cases fuel with
    | zero => exact absurd hf (by simp [reqFuelL])
    | succ fuel =>
      simp only [printElems, List.nil_append]
      simp [parseElems]
  | .cons x .nil, fuel, rest, hf => by
    cases fuel with
    | zero => exact absurd hf (by simp [reqFuelL])
    | succ fuel =>
      have hfx : reqFuelV x ≤ fuel := by
        simp only [reqFuelL] at hf
        omega
      simp only [printElems]
      obtain ⟨c, cs, heq, hne⟩ := printJson_head_ne_rbracket x
      rw [heq, show (c :: cs) ++ ']' :: rest = c :: (cs ++ ']' :: rest) from rfl]
      simp only [parseElems]
      rw [if_neg hne]
      rw [show c :: (cs ++ ']' :: rest) = (c :: cs) ++ ']' :: rest from rfl, ← heq]
      rw [parseValue_print x fuel (']' :: rest) hfx (numStop_rbracket rest)]
      simp
  | .cons x (.cons y tl), fuel, rest, hf => by
    cases fuel with
    | zero => exact absurd hf (by simp [reqFuelL])
    | succ fuel =>
      have hfx : reqFuelV x ≤ fuel := by
        simp only [reqFuelL] at hf
        omega
      have hftl : reqFuelL (.cons y tl) ≤ fuel := by
        simp only [reqFuelL] at hf ⊢
        omega
      simp only [printElems]
      obtain ⟨c, cs, heq, hne⟩ := printJson_head_ne_rbracket x
      rw [show (printJson x ++ ',' :: printElems (.cons y tl)) ++ ']' :: rest
          = printJson x ++ ',' :: (printElems (.cons y tl) ++ ']' :: rest) from by simp]
      rw [heq, show (c :: cs) ++ ',' :: (printElems (.cons y tl) ++ ']' :: rest)
          = c :: (cs ++ ',' :: (printElems (.cons y tl) ++ ']' :: rest)) from rfl]
      simp only [parseElems]
      rw [if_neg hne]
      rw [show c :: (cs ++ ',' :: (printElems (.cons y tl) ++ ']' :: rest))
          = (c :: cs) ++ ',' :: (printElems (.cons y tl) ++ ']' :: rest) from rfl, ← heq]
      rw [parseValue_print x fuel _ hfx (numStop_comma _)]
      rw [show (match (some (x, ',' :: (printElems (.cons y tl) ++ ']' :: rest))) with
          | none => none
          | some (v, r1) =>
            match r1 with
            | [] => none
            | c2 :: r2 =>
              if c2 = ',' then
                (parseElems fuel r2).map fun p => (JsonList.cons v p.1, p.2)
              else if c2 = ']' then some (JsonList.cons v .nil, r2)
              else none)
          = (parseElems fuel (printElems (.cons y tl) ++ ']' :: rest)).map
              fun p => (JsonList.cons x p.1, p.2) from by
        simp]
      rw [parseElems_print (.cons y tl) fuel rest hftl]
      rfl

theorem parseFields_print : ∀ (fs : JsonFields) (fuel : Nat) (rest : List Char),
    reqFuelF fs ≤ fuel →
    parseFields fuel (printFields fs ++ Char.ofNat 125 :: rest) = some (fs, rest)
  | .nil, fuel, rest, hf => by
    cases fuel with
    | zero => exact absurd hf (by simp [reqFuelF])
    | succ fuel =>
      simp only [printFields, List.nil_append]
      simp [parseFields]
  | .cons k v .nil, fuel, rest, hf => by
    cases fuel with
    | zero => exact absurd hf (by simp [reqFuelF])
    | succ fuel =>
      have hfv : reqFuelV v ≤ fuel := by
        simp only [reqFuelF] at hf
        omega
      simp only [printFields, printStr]
      simp only [List.cons_append, List.append_assoc, List.singleton_append,
        List.nil_append]
      rw [parseFields_cons_step fuel _ _ _ _ v (Char.ofNat 125)
        (parseStringRest_roundtrip k.data _)
        (parseValue_print v fuel _ hfv (numStop_rbrace _))]
      rw [if_neg (by decide), if_pos rfl, string_mk_data]
  | .cons k v (.cons k2 v2 tl), fuel, rest, hf => by
    cases fuel with
    | zero => exact absurd hf (by simp [reqFuelF])
    | succ fuel =>
      have hfv : reqFuelV v ≤ fuel := by
        simp only [reqFuelF] at hf
        omega
      have hftl : reqFuelF (.cons k2 v2 tl) ≤ fuel := by
        simp only [reqFuelF] at hf ⊢
        omega
      simp only [printFields, printStr]
      simp only [List.cons_append, List.append_assoc, List.singleton_append,
        List.nil_append]
      rw [parseFields_cons_step fuel _ _ _ _ v ','
        (parseStringRest_roundtrip k.data _)
        (parseValue_print v fuel _ hfv (numStop_comma _))]
      rw [if_pos rfl]
      rw [parseFields_print (.cons k2 v2 tl) fuel rest hftl]
      simp [string_mk_data]
end

/-! ## C3: the descriptor/atom round trip -/

/- `json.loads` on a complete document string: parse one value with a fuel
budget bounded by the input length (ample, by reqFuelV_le) and require
that the whole input is consumed. -/
def jsonLoads (s : String) : Option Json :=
  match parseValue (s.data.length + 1) s.data with
  | some (j, []) => some j
  | _ => none

/- The compact printer and `json.loads` are mutually inverse on every
document: the heart of the C3 round trip. -/
theorem jsonLoads_printJson (j : Json) :
    jsonLoads (String.mk (printJson j)) = some j := by
  have h := parseValue_print j ((printJson j).length + 1) [] (reqFuelV_le j)
    (by simp [numStop])
  rw [List.append_nil] at h
  show (match parseValue ((printJson j).length + 1) (printJson j) with
    | some (j2, []) => some j2
    | _ => none) = some j
  rw [h]

/-- `int(size).to_bytes(4, "big")`: the four big-endian bytes of `n`. -/
def beBytes (n : Nat) : List Nat :=
  [n / 16777216 % 256, n / 65536 % 256, n / 256 % 256, n % 256]

/- `create_vapc_atom_file` (src/vap_master.py lines 230-233): the bytes
written are a 4-byte big-endian size (payload length + 8), the tag
`vapc`, then the compact `json.dumps` payload.  The UTF-8 payload is
modelled at character granularity: each character contributes its code
point as one entry. -/
def create_vapc_atom_file (vapc_json : JsonFields) : List Nat :=
  beBytes ((printJson (Json.obj vapc_json)).length + 8) ++
    [118, 97, 112, 99] ++ (printJson (Json.obj vapc_json)).map Char.toNat

/- Reading the JSON payload back out of a vapc atom: skip the 8-byte
header (4-byte size plus the 4-byte tag, the layout `list_top_level_atoms`
scans) and `json.loads` the rest. -/
def read_vapc_atom_json (data : List Nat) : Option Json :=
  jsonLoads (String.mk ((data.drop 8).map Char.ofNat))

theorem read_create_roundtrip (fs : JsonFields) :
    read_vapc_atom_json (create_vapc_atom_file fs) = some (Json.obj fs) := by
  have hdrop : (create_vapc_atom_file fs).drop 8
      = (printJson (Json.obj fs)).map Char.toNat := by
    simp [create_vapc_atom_file, beBytes]
  rw [read_vapc_atom_json, hdrop, List.map_map]
  have hmap : (printJson (Json.obj fs)).map (Char.ofNat ∘ Char.toNat)
      = printJson (Json.obj fs) := by
    simp [Function.comp_def, Char.ofNat_toNat]
  rw [hmap]
  exact jsonLoads_printJson _

/- A successful parse only ever sees an object, and stores exactly its
fields in the descriptor. -/
theorem parse_ok_obj (j : Json) (d : VapcParsed)
    (h : parse_vapc_json j = .ok d) : j = Json.obj d.vapc_json := by
  unfold parse_vapc_json at h
  obtain ⟨vj, hvj, h⟩ := except_bind_ok_iff.mp h
  obtain ⟨info, hinfo, h⟩ := except_bind_ok_iff.mp h
  obtain ⟨fc, hfc, h⟩ := except_bind_ok_iff.mp h
  obtain ⟨fps, hfps, h⟩ := except_bind_ok_iff.mp h
  obtain ⟨a_raw, ha, h⟩ := except_bind_ok_iff.mp h
  obtain ⟨r_raw, hr, h⟩ := except_bind_ok_iff.mp h
  split_ifs at h
  obtain ⟨a0, ha0, h⟩ := except_bind_ok_iff.mp h
  obtain ⟨a1, ha1, h⟩ := except_bind_ok_iff.mp h
  obtain ⟨a2, ha2, h⟩ := except_bind_ok_iff.mp h
  obtain ⟨a3, ha3, h⟩ := except_bind_ok_iff.mp h
  obtain ⟨r0, hr0, h⟩ := except_bind_ok_iff.mp h
  obtain ⟨r1, hr1, h⟩ := except_bind_ok_iff.mp h
  obtain ⟨r2, hr2, h⟩ := except_bind_ok_iff.mp h
  obtain ⟨r3, hr3, h⟩ := except_bind_ok_iff.mp h
  have hd : d = ⟨vj, fc, fps, (a0, a1, a2, a3), (r0, r1, r2, r3)⟩ :=
    (Except.ok.inj h).symm
  rw [hd]
  exact _require_dict_ok.mp hvj

/-- C3: for every descriptor document that `parse_vapc_json` accepts,
serializing the parsed descriptor with `create_vapc_atom_file` and
reading the atom payload back as JSON recovers the very same document,
which parses again to a descriptor carrying the identical `info` field
values: `f` without truncation, `fps` without precision loss, and
`aFrame` / `rgbFrame` component-for-component. -/
theorem C3_descriptor_atom_roundtrip (j : Json) (d : VapcParsed)
    (h : parse_vapc_json j = .ok d) :
    ∃ j2 d2,
      read_vapc_atom_json (create_vapc_atom_file d.vapc_json) = some j2 ∧
      j2 = j ∧
      parse_vapc_json j2 = .ok d2 ∧
      d2.frame_count = d.frame_count ∧ d2.fps = d.fps ∧
      d2.a_frame = d.a_frame ∧ d2.rgb_frame = d.rgb_frame := by
  have hobj : j = Json.obj d.vapc_json := parse_ok_obj j d h
  refine ⟨j, d, ?_, rfl, h, rfl, rfl, rfl, rfl⟩
  rw [read_create_roundtrip, hobj]

/-- Witness for C3 at a concrete accepted descriptor. -/
theorem C3_descriptor_atom_roundtrip_witness :
    parse_vapc_json goodFrameDoc = Except.ok goodFrameParsed ∧
    (∃ j2 d2,
      read_vapc_atom_json (create_vapc_atom_file goodFrameParsed.vapc_json)
        = some j2 ∧
      j2 = goodFrameDoc ∧
      parse_vapc_json j2 = Except.ok d2 ∧
      d2.frame_count = goodFrameParsed.frame_count ∧
      d2.fps = goodFrameParsed.fps ∧
      d2.a_frame = goodFrameParsed.a_frame ∧
      d2.rgb_frame = goodFrameParsed.rgb_frame) :=
  ⟨rfl, C3_descriptor_atom_roundtrip goodFrameDoc goodFrameParsed rfl⟩

end VapMaster
